import Mathlib

/-!
The Intel HEX loader of `bootloader/source/main.c`

A shallow embedding of `load_program`: the local variables of the C function
become the fields of `Regs`, one pass through the body of `while(1)` becomes
`iter`, and the loop run over a finite prefix of the UART input becomes
`load_program_from`.  `unsigned int` is 32 bits wide; every operation that can
leave that range is reduced modulo `2^32` explicitly.

Characters are their codes: `':'` is 58, `'\r'` is 13, `'\n'` is 10,
`'g'` is 103, `'G'` is 71, `'0'..'9'` are 48..57 and `'A'..'F'` are 65..70.
-/

namespace Bootloader

/-- The entry address, `#define RPI_BOOT (0x8000)`. -/
def RPI_BOOT : Nat := 0x8000

/-- The number of values of an `unsigned int`, `2^32`. -/
def U32 : Nat := 4294967296

/-- The local variables of `load_program` that live across loop iterations. -/
structure Regs where
  state : Nat
  byte_count : Nat
  address : Nat
  record_type : Nat
  segment : Nat
  data : Nat
  sum : Nat
deriving DecidableEq, Repr

/-- The calls `load_program` makes to its external collaborators, in order. -/
inductive Effect where
  | PUT32 (address value : Nat)
  | print_hex (value : Nat)
  | put_string (text : List Nat)
  | BRANCHTO (address : Nat)
deriving DecidableEq, Repr

/-- The values assigned before `while(1)` (main.c lines 68-74). -/
def init : Regs :=
  { state := 0, byte_count := 0, address := 0, record_type := 0,
    segment := 0, data := 0, sum := 0 }

/-- The text `"\r--\r\n\n"` passed to `put_string` on `g`/`G`, as character codes. -/
def ack : List Nat := [13, 45, 45, 13, 10, 10]

/-- The C expression `x << k` on `unsigned int`. -/
def shl (x k : Nat) : Nat := (x <<< k) % U32

/-- The value `ra & 0xF` after `if(ra>0x39) ra-=7;`. -/
def nibble (ra : Nat) : Nat := (if ra > 0x39 then ra - 7 else ra) &&& 0xF

/-- The value of `ra` after lines 197-199, a byte swap of `data`. -/
def swap (data : Nat) : Nat :=
  (((data >>> 24) ||| shl data 24) ||| ((data >>> 8) &&& 0x0000FF00))
    ||| (shl data 8 &&& 0x00FF0000)

/-- The `switch(state)` of lines 95-213: the new variables and the calls made. -/
def dispatch (s : Regs) (ra : Nat) : Regs × List Effect :=
  if s.state = 0 then (s, [])
  else if s.state = 1 ∨ s.state = 2 then
    ({ s with byte_count := (shl s.byte_count 4 ||| nibble ra) &&& 0xFF,
              state := s.state + 1 }, [])
  else if s.state = 3 ∨ s.state = 4 ∨ s.state = 5 ∨ s.state = 6 then
    ({ s with address := ((shl s.address 4 ||| nibble ra) &&& 0xFFFF) ||| s.segment,
              state := s.state + 1 }, [])
  else if s.state = 7 then
    ({ s with record_type := (shl s.record_type 4 ||| nibble ra) &&& 0xFF,
              state := s.state + 1 }, [])
  else if s.state = 8 then
    let record_type := (shl s.record_type 4 ||| nibble ra) &&& 0xFF
    if record_type = 0x00 then ({ s with record_type := record_type, state := 14 }, [])
    else if record_type = 0x01 then
      ({ s with record_type := record_type, state := 0 }, [Effect.print_hex s.sum])
    else if record_type = 0x02 then ({ s with record_type := record_type, state := 9 }, [])
    else ({ s with record_type := record_type, state := 0 }, [])
  else if s.state = 9 ∨ s.state = 10 ∨ s.state = 11 ∨ s.state = 12 then
    ({ s with segment := (shl s.segment 4 ||| nibble ra) &&& 0xFFFF,
              state := s.state + 1 }, [])
  else if s.state = 13 then
    ({ s with segment := shl s.segment 4, state := 0 }, [])
  else if 14 ≤ s.state ∧ s.state ≤ 21 then
    let data := shl s.data 4 ||| nibble ra
    if s.state = 21 then
      let data := swap data
      ({ s with data := data,
                sum := ((s.sum + s.address) % U32 + data) % U32,
                address := (s.address + 4) % U32,
                state := 14 }, [Effect.PUT32 s.address data])
    else ({ s with data := data, state := s.state + 1 }, [])
  else (s, [])

/-- One pass through the body of `while(1)` with `get_char()` returning `ra`:
the new variables, the calls made, and whether the loop was left by `break`. -/
def iter (s : Regs) (ra : Nat) : Regs × List Effect × Bool :=
  if ra = 58 then ({ s with state := 1 }, [], false)
  else if ra = 13 ∨ ra = 10 then ({ s with state := 0 }, [], false)
  else if ra = 103 ∨ ra = 71 then
    ({ s with state := 0 }, [Effect.put_string ack, Effect.BRANCHTO RPI_BOOT], true)
  else ((dispatch s ra).1, (dispatch s ra).2, false)

/-- What a run of the loop over a finite input leaves behind. -/
structure Run where
  regs : Regs
  trace : List Effect
  halted : Bool
  rest : List Nat
deriving DecidableEq, Repr

/-- The loop `while(1)` started with the variables `s`, `get_char()` returning the
characters of the list in order.  The run stops at `break` (`halted`, with the
characters not consumed in `rest`) or when the list is used up. -/
def load_program_from (s : Regs) : List Nat → Run
  | [] => { regs := s, trace := [], halted := false, rest := [] }
  | ra :: cs =>
    if (iter s ra).2.2 then
      { regs := (iter s ra).1, trace := (iter s ra).2.1, halted := true, rest := cs }
    else
      { load_program_from (iter s ra).1 cs with
        trace := (iter s ra).2.1 ++ (load_program_from (iter s ra).1 cs).trace }

/-- The function `load_program`: the loop started from the initial values. -/
def load_program (input : List Nat) : Run := load_program_from init input

/-- The character codes of a string, as `get_char()` delivers them. -/
def codes (text : String) : List Nat := text.toList.map Char.toNat

/-- The characters `0-9` and `A-F`. -/
def isHexDigit (c : Nat) : Prop := (48 ≤ c ∧ c ≤ 57) ∨ (65 ≤ c ∧ c ≤ 70)

instance (c : Nat) : Decidable (isHexDigit c) := by unfold isHexDigit; infer_instance

/-- The hexadecimal value of a character among `0-9`, `A-F`. -/
def hexValue (c : Nat) : Nat := if c ≤ 57 then c - 48 else c - 55

/-- The byte two hex digit characters spell, high digit first. -/
def hexByte (c1 c2 : Nat) : Nat := 16 * hexValue c1 + hexValue c2

/-- The characters the loop handles before the `switch`: `:`, CR, LF, `g`, `G`. -/
def isSpecial (c : Nat) : Prop := c = 58 ∨ c = 13 ∨ c = 10 ∨ c = 103 ∨ c = 71

instance (c : Nat) : Decidable (isSpecial c) := by unfold isSpecial; infer_instance

/-- The data accumulator after the characters `cs` went through lines 192-194. -/
def word (data : Nat) (cs : List Nat) : Nat :=
  cs.foldl (fun d c => shl d 4 ||| nibble c) data

/-- The 32-bit word whose bytes, lowest first, are the four bytes that eight hex
digit characters spell in transmission order. -/
def wordOf : List Nat → Nat
  | [c0, c1, c2, c3, c4, c5, c6, c7] =>
    hexByte c0 c1 + hexByte c2 c3 * 2 ^ 8 + hexByte c4 c5 * 2 ^ 16 + hexByte c6 c7 * 2 ^ 24
  | _ => 0

/-- A parser at the start of the data field with leftovers in every variable. -/
def atData : Regs :=
  { state := 14, byte_count := 4, address := 0xFFFFFFFC, record_type := 0,
    segment := 0, data := 0xDEADBEEF, sum := 7 }

/-- The sum of address + value over the `PUT32` calls of a trace. -/
def checksum : List Effect → Nat
  | [] => 0
  | Effect.PUT32 address value :: es => address + value + checksum es
  | _ :: es => checksum es

/-- The `PUT32` calls of a trace, in order. -/
def writes : List Effect → List Effect
  | [] => []
  | Effect.PUT32 address value :: es => Effect.PUT32 address value :: writes es
  | _ :: es => writes es

/-- The bounds on the variables: the state is a case of the `switch`, byte count and
record type are bytes, the segment has 20 bits. -/
def Bounded (s : Regs) : Prop :=
  s.state ≤ 21 ∧ s.byte_count ≤ 0xFF ∧ s.record_type ≤ 0xFF ∧ s.segment < 2 ^ 20

/-- The bounds together with what makes them inductive: while the segment digits are
read (after the first), the segment has 16 bits. -/
def Invariant (s : Regs) : Prop :=
  Bounded s ∧ (10 ≤ s.state ∧ s.state ≤ 13 → s.segment < 2 ^ 16)

/-- The states in which the whole address field is live: it is written out with the
next data word, or was just completed. -/
def fullAddress (state : Nat) : Prop := state = 7 ∨ state = 8 ∨ (14 ≤ state ∧ state ≤ 21)

instance (state : Nat) : Decidable (fullAddress state) := by unfold fullAddress; infer_instance

/-- How much of the low end of the address field survives the address digits still to
come: `16^j` after `j` of the four digits. -/
def addressWindow (state : Nat) : Nat :=
  if state = 4 then 16 else if state = 5 then 256 else if state = 6 then 4096 else 1

/-- How much of the low end of the record type field survives the second type digit. -/
def typeWindow (state : Nat) : Nat := if state = 8 then 16 else 1

/-- How much of the low end of the data accumulator ends up in the word being read:
`16^j` after `j` of its eight digits. -/
def dataWindow (state : Nat) : Nat :=
  if 14 ≤ state ∧ state ≤ 21 then 16 ^ (state - 14) else 1

/-- Two sets of variables that the loop cannot tell apart by its `PUT32` calls: same
state and segment, and the same live part of address, record type and data accumulator.
Byte count and checksum accumulator are free. -/
def Sim (s t : Regs) : Prop :=
  s.state = t.state ∧ s.segment = t.segment
  ∧ (fullAddress s.state → s.address = t.address)
  ∧ s.address % addressWindow s.state = t.address % addressWindow s.state
  ∧ s.record_type % typeWindow s.state = t.record_type % typeWindow s.state
  ∧ s.data % dataWindow s.state = t.data % dataWindow s.state

/-- Two inputs that differ at most in the two characters after the `:` of some records,
none of those characters being `:`, CR, LF, `g` or `G`. -/
inductive ByteCountVariant : List Nat → List Nat → Prop where
  | nil : ByteCountVariant [] []
  | same (c : Nat) {xs ys : List Nat} :
      ByteCountVariant xs ys → ByteCountVariant (c :: xs) (c :: ys)
  | count (a1 a2 b1 b2 : Nat) {xs ys : List Nat} :
      ¬ isSpecial a1 → ¬ isSpecial a2 → ¬ isSpecial b1 → ¬ isSpecial b2 →
      ByteCountVariant xs ys → ByteCountVariant (58 :: a1 :: a2 :: xs) (58 :: b1 :: b2 :: ys)

/-- Two sets of variables that differ at most in the byte count. -/
def sameButByteCount (s t : Regs) : Prop :=
  { s with byte_count := 0 } = { t with byte_count := 0 }

/-! ## Bit-level facts -/

theorem land_byte_at (x k : Nat) :
    x &&& ((2 ^ 8 - 1) <<< k) = ((x >>> k) % 2 ^ 8) <<< k := by
  apply Nat.eq_of_testBit_eq
  intro i
  simp only [Nat.testBit_and, Nat.testBit_shiftLeft, Nat.testBit_two_pow_sub_one,
    Nat.testBit_mod_two_pow, Nat.testBit_shiftRight]
  by_cases h : k ≤ i
  · have : k + (i - k) = i := by omega
    simp [h, this, Bool.and_comm]
  · simp [h]

theorem land_ff00 (x : Nat) : x &&& 0xFF00 = (x / 256 % 256) * 256 := by
  have h := land_byte_at x 8
  simpa [Nat.shiftLeft_eq, Nat.shiftRight_eq_div_pow] using h

theorem land_ff0000 (x : Nat) : x &&& 0xFF0000 = (x / 65536 % 256) * 65536 := by
  have h := land_byte_at x 16
  simpa [Nat.shiftLeft_eq, Nat.shiftRight_eq_div_pow] using h

theorem land_ff (x : Nat) : x &&& 0xFF = x % 256 := Nat.and_pow_two_sub_one_eq_mod x 8

theorem land_ffff (x : Nat) : x &&& 0xFFFF = x % 65536 := Nat.and_pow_two_sub_one_eq_mod x 16

theorem land_f (x : Nat) : x &&& 0xF = x % 16 := Nat.and_pow_two_sub_one_eq_mod x 4

theorem nibble_lt (c : Nat) : nibble c < 16 := by
  unfold nibble
  rw [land_f]
  omega

theorem shl_lor_nibble (x n : Nat) (hn : n < 16) :
    shl x 4 ||| n = (x * 16) % 4294967296 + n := by
  have h1 : shl x 4 = 2 ^ 4 * (x % 268435456) := by
    unfold shl U32
    rw [Nat.shiftLeft_eq]; omega
  have h2 : (x * 16) % 4294967296 = 2 ^ 4 * (x % 268435456) := by omega
  rw [h1, h2]
  exact (Nat.mul_add_lt_is_or (by simpa using hn) _).symm

theorem lor_bytes (a b c d : Nat) (ha : a < 256) (hb : b < 256) (hc : c < 256) :
    ((a ||| d * 16777216) ||| b * 256) ||| c * 65536
      = a + b * 256 + c * 65536 + d * 16777216 := by
  have e1 : 2 ^ 8 * b + a = 2 ^ 8 * b ||| a := Nat.mul_add_lt_is_or (by omega) b
  have e2 : 2 ^ 16 * c + (2 ^ 8 * b + a) = 2 ^ 16 * c ||| (2 ^ 8 * b + a) :=
    Nat.mul_add_lt_is_or (by omega) c
  have e3 : 2 ^ 24 * d + (2 ^ 16 * c + (2 ^ 8 * b + a))
      = 2 ^ 24 * d ||| (2 ^ 16 * c + (2 ^ 8 * b + a)) :=
    Nat.mul_add_lt_is_or (by omega) d
  have e4 : ((a ||| d * 16777216) ||| b * 256) ||| c * 65536
      = 2 ^ 24 * d ||| (2 ^ 16 * c ||| (2 ^ 8 * b ||| a)) := by
    rw [show d * 16777216 = 2 ^ 24 * d by omega, show b * 256 = 2 ^ 8 * b by omega,
      show c * 65536 = 2 ^ 16 * c by omega]
    ac_rfl
  rw [e4, ← e1, ← e2, ← e3]
  omega

theorem swap_eq (d : Nat) (hd : d < 4294967296) :
    swap d = d / 16777216 + (d / 65536 % 256) * 256 + (d / 256 % 256) * 65536
      + (d % 256) * 16777216 := by
  unfold swap shl U32
  rw [land_ff00, land_ff0000, Nat.shiftRight_eq_div_pow, Nat.shiftRight_eq_div_pow,
    Nat.shiftLeft_eq, Nat.shiftLeft_eq]
  have h1 : d * 2 ^ 24 % 4294967296 = (d % 256) * 16777216 := by omega
  have h2 : d / 2 ^ 8 / 256 % 256 = d / 65536 % 256 := by omega
  have h3 : d * 2 ^ 8 % 4294967296 / 65536 % 256 = d / 256 % 256 := by omega
  rw [h1, h2, h3]
  exact lor_bytes _ _ _ _ (by omega) (by omega) (by omega)

/-! ## Hex digit characters -/

theorem nibble_hex (c : Nat) (h : isHexDigit c) : nibble c = hexValue c := by
  unfold isHexDigit at h
  unfold nibble hexValue
  rw [land_f]
  split_ifs <;> omega

theorem hexValue_lt (c : Nat) (h : isHexDigit c) : hexValue c < 16 := by
  unfold isHexDigit at h
  unfold hexValue
  split_ifs <;> omega

theorem hexByte_lt (c1 c2 : Nat) (h1 : isHexDigit c1) (h2 : isHexDigit c2) :
    hexByte c1 c2 < 256 := by
  have := hexValue_lt c1 h1
  have := hexValue_lt c2 h2
  unfold hexByte
  omega

theorem hex_not_special (c : Nat) (h : isHexDigit c) : ¬ isSpecial c := by
  unfold isHexDigit at h
  unfold isSpecial
  omega

/-- Eight nibbles shifted into the data accumulator push out all it held. -/
theorem word_eight (d c0 c1 c2 c3 c4 c5 c6 c7 : Nat) :
    word d [c0, c1, c2, c3, c4, c5, c6, c7]
      = (16 * nibble c0 + nibble c1) * 16777216 + (16 * nibble c2 + nibble c3) * 65536
        + (16 * nibble c4 + nibble c5) * 256 + (16 * nibble c6 + nibble c7) := by
  have h0 := nibble_lt c0
  have h1 := nibble_lt c1
  have h2 := nibble_lt c2
  have h3 := nibble_lt c3
  have h4 := nibble_lt c4
  have h5 := nibble_lt c5
  have h6 := nibble_lt c6
  have h7 := nibble_lt c7
  simp only [word, List.foldl_cons, List.foldl_nil]
  rw [shl_lor_nibble _ _ h0, shl_lor_nibble _ _ h1, shl_lor_nibble _ _ h2,
    shl_lor_nibble _ _ h3, shl_lor_nibble _ _ h4, shl_lor_nibble _ _ h5,
    shl_lor_nibble _ _ h6, shl_lor_nibble _ _ h7]
  omega

/-- The word stored for eight characters: the bytes they spell, first byte lowest. -/
theorem swap_word_eight (d c0 c1 c2 c3 c4 c5 c6 c7 : Nat) :
    swap (word d [c0, c1, c2, c3, c4, c5, c6, c7])
      = (16 * nibble c0 + nibble c1) + (16 * nibble c2 + nibble c3) * 256
        + (16 * nibble c4 + nibble c5) * 65536 + (16 * nibble c6 + nibble c7) * 16777216 := by
  have h0 := nibble_lt c0
  have h1 := nibble_lt c1
  have h2 := nibble_lt c2
  have h3 := nibble_lt c3
  have h4 := nibble_lt c4
  have h5 := nibble_lt c5
  have h6 := nibble_lt c6
  have h7 := nibble_lt c7
  rw [word_eight, swap_eq _ (by omega)]
  omega

/-! ## Running the loop -/

theorem iter_plain (s : Regs) (c : Nat) (h : ¬ isSpecial c) :
    iter s c = ((dispatch s c).1, (dispatch s c).2, false) := by
  unfold isSpecial at h
  unfold iter
  have h1 : ¬ c = 58 := by omega
  have h2 : ¬ (c = 13 ∨ c = 10) := by omega
  have h3 : ¬ (c = 103 ∨ c = 71) := by omega
  simp only [h1, h2, h3, if_false]

theorem run_cons_plain (s : Regs) (c : Nat) (cs : List Nat) (h : ¬ isSpecial c) :
    load_program_from s (c :: cs)
      = { load_program_from (dispatch s c).1 cs with
          trace := (dispatch s c).2 ++ (load_program_from (dispatch s c).1 cs).trace } := by
  simp [load_program_from, iter_plain s c h]

/-- A run over `xs ++ ys` that does not break within `xs` is the run over `xs`
followed by the run over `ys`. -/
theorem run_append (xs ys : List Nat) :
    ∀ s : Regs, (load_program_from s xs).halted = false →
      load_program_from s (xs ++ ys)
        = { load_program_from (load_program_from s xs).regs ys with
            trace := (load_program_from s xs).trace
              ++ (load_program_from (load_program_from s xs).regs ys).trace } := by
  induction xs with
  | nil => intro s _; simp [load_program_from]
  | cons x xs ih =>
    intro s h
    by_cases hb : (iter s x).2.2 = true
    · simp [load_program_from, hb] at h
    · rw [List.cons_append]
      simp only [load_program_from, hb] at h ⊢
      simp only [Bool.false_eq_true, if_false] at h ⊢
      rw [ih _ h]
      simp [List.append_assoc]

theorem dispatch_data (s : Regs) (c : Nat) (h1 : 14 ≤ s.state) (h2 : s.state ≤ 20) :
    dispatch s c
      = ({ s with data := shl s.data 4 ||| nibble c, state := s.state + 1 }, []) := by
  unfold dispatch
  have e0 : ¬ s.state = 0 := by omega
  have e1 : ¬ (s.state = 1 ∨ s.state = 2) := by omega
  have e2 : ¬ (s.state = 3 ∨ s.state = 4 ∨ s.state = 5 ∨ s.state = 6) := by omega
  have e3 : ¬ s.state = 7 := by omega
  have e4 : ¬ s.state = 8 := by omega
  have e5 : ¬ (s.state = 9 ∨ s.state = 10 ∨ s.state = 11 ∨ s.state = 12) := by omega
  have e6 : ¬ s.state = 13 := by omega
  have e7 : 14 ≤ s.state ∧ s.state ≤ 21 := by omega
  have e8 : ¬ s.state = 21 := by omega
  simp only [e0, e1, e2, e3, e4, e5, e6, e7, e8, and_self, if_true, if_false]

theorem dispatch_store (s : Regs) (c : Nat) (h : s.state = 21) :
    dispatch s c
      = ({ s with data := swap (shl s.data 4 ||| nibble c),
                  sum := ((s.sum + s.address) % U32 + swap (shl s.data 4 ||| nibble c)) % U32,
                  address := (s.address + 4) % U32,
                  state := 14 },
         [Effect.PUT32 s.address (swap (shl s.data 4 ||| nibble c))]) := by
  unfold dispatch
  simp [h]

/-- Characters read in the data field before the eighth of a word only move the
accumulator and the state. -/
theorem data_run (cs : List Nat) :
    ∀ s : Regs, (∀ c ∈ cs, ¬ isSpecial c) → 14 ≤ s.state → s.state + cs.length ≤ 21 →
      load_program_from s cs
        = { regs := { s with data := word s.data cs, state := s.state + cs.length },
            trace := [], halted := false, rest := [] } := by
  induction cs with
  | nil => intro s _ _ _; simp [load_program_from, word]
  | cons c cs ih =>
    intro s hc h1 h2
    simp only [List.length_cons] at h2
    rw [run_cons_plain s c cs (hc c (List.mem_cons_self c cs)),
      dispatch_data s c h1 (by omega)]
    rw [ih _ (fun x hx => hc x (List.mem_cons_of_mem c hx)) (by simp; omega)
      (by simp; omega)]
    simp [word, Nat.add_assoc, Nat.add_comm 1]

/-- Eight data characters from state 14: one `PUT32`, on the eighth. -/
theorem data_word_run (s : Regs) (w : List Nat) (hs : s.state = 14) (hw : w.length = 8)
    (hc : ∀ c ∈ w, ¬ isSpecial c) :
    load_program_from s w
      = { regs := { s with data := swap (word s.data w),
                           sum := ((s.sum + s.address) % U32 + swap (word s.data w)) % U32,
                           address := (s.address + 4) % U32,
                           state := 14 },
          trace := [Effect.PUT32 s.address (swap (word s.data w))],
          halted := false, rest := [] } := by
  obtain ⟨w7, c, rfl⟩ : ∃ w7 c, w = w7 ++ [c] :=
    ⟨w.dropLast, w.getLast (by intro h; simp [h] at hw), (List.dropLast_append_getLast _).symm⟩
  have h7 : w7.length = 7 := by simpa using hw
  have hc7 : ∀ x ∈ w7, ¬ isSpecial x := fun x hx => hc x (by simp [hx])
  have hcc : ¬ isSpecial c := hc c (by simp)
  have hrun := data_run w7 s hc7 (by omega) (by omega)
  rw [run_append w7 [c] s (by rw [hrun]), hrun]
  simp only []
  rw [run_cons_plain _ c [] hcc, dispatch_store _ c (by simp [hs, h7])]
  simp [load_program_from, word, List.foldl_append]

theorem swap_word_hex (d c0 c1 c2 c3 c4 c5 c6 c7 : Nat)
    (h0 : isHexDigit c0) (h1 : isHexDigit c1) (h2 : isHexDigit c2) (h3 : isHexDigit c3)
    (h4 : isHexDigit c4) (h5 : isHexDigit c5) (h6 : isHexDigit c6) (h7 : isHexDigit c7) :
    swap (word d [c0, c1, c2, c3, c4, c5, c6, c7])
      = hexByte c0 c1 + hexByte c2 c3 * 2 ^ 8 + hexByte c4 c5 * 2 ^ 16
        + hexByte c6 c7 * 2 ^ 24 := by
  rw [swap_word_eight, nibble_hex c0 h0, nibble_hex c1 h1, nibble_hex c2 h2,
    nibble_hex c3 h3, nibble_hex c4 h4, nibble_hex c5 h5, nibble_hex c6 h6,
    nibble_hex c7 h7]
  unfold hexByte
  norm_num

/-! ## The claims -/

/-- C1: from state 14, whatever the data accumulator holds, eight hex digit characters
spelling the bytes b0 b1 b2 b3 cause no call during the first seven characters and, on
the eighth, exactly one `PUT32`, at the address field's value at that moment (which is
still the address the field held at the start), with value
b0 + b1*2^8 + b2*2^16 + b3*2^24; afterwards the address is the old one plus 4 modulo 2^32
and the state is 14 again. -/
theorem C1_data_word_write (s : Regs) (c0 c1 c2 c3 c4 c5 c6 c7 : Nat) (hs : s.state = 14)
    (h0 : isHexDigit c0) (h1 : isHexDigit c1) (h2 : isHexDigit c2) (h3 : isHexDigit c3)
    (h4 : isHexDigit c4) (h5 : isHexDigit c5) (h6 : isHexDigit c6) (h7 : isHexDigit c7) :
    (load_program_from s [c0, c1, c2, c3, c4, c5, c6]).trace = []
    ∧ (load_program_from s [c0, c1, c2, c3, c4, c5, c6]).regs.address = s.address
    ∧ (iter (load_program_from s [c0, c1, c2, c3, c4, c5, c6]).regs c7).2.1
        = [Effect.PUT32 (load_program_from s [c0, c1, c2, c3, c4, c5, c6]).regs.address
            (hexByte c0 c1 + hexByte c2 c3 * 2 ^ 8 + hexByte c4 c5 * 2 ^ 16
              + hexByte c6 c7 * 2 ^ 24)]
    ∧ (load_program_from s [c0, c1, c2, c3, c4, c5, c6, c7]).trace
        = [Effect.PUT32 s.address
            (hexByte c0 c1 + hexByte c2 c3 * 2 ^ 8 + hexByte c4 c5 * 2 ^ 16
              + hexByte c6 c7 * 2 ^ 24)]
    ∧ (load_program_from s [c0, c1, c2, c3, c4, c5, c6, c7]).regs.address
        = (s.address + 4) % 2 ^ 32
    ∧ (load_program_from s [c0, c1, c2, c3, c4, c5, c6, c7]).regs.state = 14
    ∧ (load_program_from s [c0, c1, c2, c3, c4, c5, c6, c7]).halted = false := by
  have n0 := hex_not_special c0 h0
  have n1 := hex_not_special c1 h1
  have n2 := hex_not_special c2 h2
  have n3 := hex_not_special c3 h3
  have n4 := hex_not_special c4 h4
  have n5 := hex_not_special c5 h5
  have n6 := hex_not_special c6 h6
  have n7 := hex_not_special c7 h7
  have r7 := data_run [c0, c1, c2, c3, c4, c5, c6] s (by simp; tauto) (by omega)
    (by simp; omega)
  have r8 := data_word_run s [c0, c1, c2, c3, c4, c5, c6, c7] hs rfl (by simp; tauto)
  have hv := swap_word_hex s.data c0 c1 c2 c3 c4 c5 c6 c7 h0 h1 h2 h3 h4 h5 h6 h7
  have hstep : (iter { s with data := word s.data [c0, c1, c2, c3, c4, c5, c6],
                              state := s.state + 7 } c7).2.1
      = [Effect.PUT32 s.address (swap (word s.data [c0, c1, c2, c3, c4, c5, c6, c7]))] := by
    rw [iter_plain _ c7 n7, dispatch_store _ c7 (by simp [hs])]
    simp [word]
  rw [r7, r8]
  refine ⟨rfl, rfl, ?_, ?_, ?_, rfl, rfl⟩
  · simpa [hv] using hstep
  · simp [hv]
  · simp [U32]

/-- C1, at a parser with leftovers in the accumulator and the address `0xFFFFFFFC`,
reading `00001234`. -/
theorem C1_data_word_write_witness :
    (load_program_from atData [48, 48, 48, 48, 49, 50, 51, 52]).trace
        = [Effect.PUT32 atData.address
            (hexByte 48 48 + hexByte 48 48 * 2 ^ 8 + hexByte 49 50 * 2 ^ 16
              + hexByte 51 52 * 2 ^ 24)]
    ∧ (load_program_from atData [48, 48, 48, 48, 49, 50, 51, 52]).regs.address
        = (atData.address + 4) % 2 ^ 32 :=
  have h := C1_data_word_write atData 48 48 48 48 49 50 51 52 rfl (by decide) (by decide)
    (by decide) (by decide) (by decide) (by decide) (by decide) (by decide)
  ⟨h.2.2.2.1, h.2.2.2.2.1⟩


theorem wordOf_swap (w : List Nat) (d : Nat) (hw : w.length = 8)
    (hp : ∀ c ∈ w, isHexDigit c) : swap (word d w) = wordOf w := by
  rcases w with _ | ⟨c0, _ | ⟨c1, _ | ⟨c2, _ | ⟨c3, _ | ⟨c4, _ | ⟨c5, _ | ⟨c6, _ | ⟨c7, _ | ⟨c8, w⟩⟩⟩⟩⟩⟩⟩⟩⟩ <;>
    simp at hw
  simp only [List.mem_cons, List.mem_singleton, forall_eq_or_imp, forall_eq] at hp
  simp only [List.not_mem_nil, false_implies, implies_true, and_true] at hp
  obtain ⟨h0, h1, h2, h3, h4, h5, h6, h7⟩ := hp
  exact swap_word_hex d c0 c1 c2 c3 c4 c5 c6 c7 h0 h1 h2 h3 h4 h5 h6 h7

theorem payload_run (n : Nat) :
    ∀ (p : List Nat) (s : Regs), p.length ≤ n → s.state = 14 → s.address < U32 →
      (∀ c ∈ p, isHexDigit c) →
      (load_program_from s p).halted = false
      ∧ (load_program_from s p).trace
          = (List.range (p.length / 8)).map (fun i =>
              Effect.PUT32 ((s.address + 4 * i) % U32) (wordOf ((p.drop (8 * i)).take 8))) := by
  induction n with
  | zero =>
    intro p s hn _ _ _
    have : p = [] := List.length_eq_zero.mp (by omega)
    subst this
    simp [load_program_from]
  | succ n ih =>
    intro p s hn hs ha hp
    have hsp : ∀ c ∈ p, ¬ isSpecial c := fun c hc => hex_not_special c (hp c hc)
    by_cases h8 : p.length < 8
    · rw [data_run p s hsp (by omega) (by omega)]
      have : p.length / 8 = 0 := by omega
      simp [this]
    · have hsplit : p = p.take 8 ++ p.drop 8 := (List.take_append_drop 8 p).symm
      have hlen : (p.take 8).length = 8 := by simp; omega
      have hw := data_word_run s (p.take 8) hs hlen
        (fun c hc => hsp c (List.mem_of_mem_take hc))
      have hdl : (p.drop 8).length = p.length - 8 := by simp
      obtain ⟨ih1, ih2⟩ := ih (p.drop 8)
        { s with data := swap (word s.data (p.take 8)),
                 sum := ((s.sum + s.address) % U32 + swap (word s.data (p.take 8))) % U32,
                 address := (s.address + 4) % U32,
                 state := 14 }
        (by omega) rfl (Nat.mod_lt _ (by unfold U32; omega))
        (fun c hc => hp c (List.mem_of_mem_drop hc))
      have hrun := run_append (p.take 8) (p.drop 8) s (by rw [hw])
      rw [← hsplit, hw] at hrun
      simp only [] at hrun
      rw [hrun]
      refine ⟨ih1, ?_⟩
      simp only []
      rw [ih2, hdl]
      have hk : p.length / 8 = (p.length - 8) / 8 + 1 := by omega
      rw [hk, List.range_succ_eq_map, List.map_cons, List.map_map]
      rw [wordOf_swap _ _ hlen (fun c hc => hp c (List.mem_of_mem_take hc))]
      simp only [List.singleton_append, Nat.mul_zero, Nat.add_zero, List.drop_zero,
        Nat.mod_eq_of_lt ha]
      congr 1
      apply List.map_congr_left
      intro i _
      simp only [Function.comp, List.drop_drop]
      have e1 : ((s.address + 4) % U32 + 4 * i) % U32 = (s.address + 4 * i.succ) % U32 := by
        unfold U32; omega
      have e2 : 8 + 8 * i = 8 * i.succ := by omega
      rw [e1, e2]

/-- C2: a Data record whose header left the address field at A (state 14) and whose
payload is k hex digit characters followed by `:`, CR or LF performs exactly k/8 calls
of `PUT32` and nothing else, the i-th at (A + 4*i) mod 2^32 with the byte-swapped value
of the payload digits 8i..8i+7; the trailing k mod 8 digits and the terminator cause
no call, and the loop goes on. -/
theorem C2_data_record_writes (s : Regs) (p : List Nat) (t : Nat) (hs : s.state = 14)
    (ha : s.address < 2 ^ 32) (hp : ∀ c ∈ p, isHexDigit c)
    (ht : t = 58 ∨ t = 13 ∨ t = 10) :
    (load_program_from s (p ++ [t])).trace
        = (List.range (p.length / 8)).map (fun i =>
            Effect.PUT32 ((s.address + 4 * i) % 2 ^ 32) (wordOf ((p.drop (8 * i)).take 8)))
    ∧ (load_program_from s (p ++ [t])).halted = false := by
  obtain ⟨h1, h2⟩ := payload_run p.length p s (Nat.le_refl _) hs (by simpa [U32] using ha) hp
  have ht1 : (iter (load_program_from s p).regs t).2.1 = []
      ∧ (iter (load_program_from s p).regs t).2.2 = false := by
    unfold iter
    rcases ht with h | h | h <;> subst h <;> simp
  rw [run_append p [t] s h1, h2]
  simp [load_program_from, ht1.1, ht1.2, U32]

/-- C2, for the payload `0000123478563412AB` ended by a carriage return, at the
address `0xFFFFFFFC`: two words, the second wrapped around to address 0. -/
theorem C2_data_record_writes_witness :
    (load_program_from atData (codes "0000123478563412AB" ++ [13])).trace
      = [Effect.PUT32 0xFFFFFFFC 0x34120000, Effect.PUT32 0 0x12345678] :=
  (C2_data_record_writes atData (codes "0000123478563412AB") 13 rfl (by decide)
    (by decide) (by decide)).1

/-- Two digits shifted into an 8-bit field push out all it held. -/
theorem field8_two (x c1 c2 : Nat) :
    (shl ((shl x 4 ||| nibble c1) &&& 0xFF) 4 ||| nibble c2) &&& 0xFF
      = 16 * nibble c1 + nibble c2 := by
  have h1 := nibble_lt c1
  have h2 := nibble_lt c2
  rw [shl_lor_nibble _ _ h1, land_ff, shl_lor_nibble _ _ h2, land_ff]
  omega

/-- Four digits shifted into the 16-bit segment field push out all it held. -/
theorem field16_four (x c1 c2 c3 c4 : Nat) :
    (shl ((shl ((shl ((shl x 4 ||| nibble c1) &&& 0xFFFF) 4 ||| nibble c2) &&& 0xFFFF) 4
        ||| nibble c3) &&& 0xFFFF) 4 ||| nibble c4) &&& 0xFFFF
      = (16 * nibble c1 + nibble c2) * 256 + (16 * nibble c3 + nibble c4) := by
  have h1 := nibble_lt c1
  have h2 := nibble_lt c2
  have h3 := nibble_lt c3
  have h4 := nibble_lt c4
  rw [shl_lor_nibble _ _ h1, land_ffff, shl_lor_nibble _ _ h2, land_ffff,
    shl_lor_nibble _ _ h3, land_ffff, shl_lor_nibble _ _ h4, land_ffff]
  omega

/-! ## The cases of the `switch` -/

theorem dispatch_idle (s : Regs) (c : Nat) (h : s.state = 0) : dispatch s c = (s, []) := by
  unfold dispatch
  simp [h]

theorem dispatch_byte_count (s : Regs) (c : Nat) (h : s.state = 1 ∨ s.state = 2) :
    dispatch s c
      = ({ s with byte_count := (shl s.byte_count 4 ||| nibble c) &&& 0xFF,
                  state := s.state + 1 }, []) := by
  unfold dispatch
  rcases h with h | h <;> simp [h]

theorem dispatch_address (s : Regs) (c : Nat)
    (h : s.state = 3 ∨ s.state = 4 ∨ s.state = 5 ∨ s.state = 6) :
    dispatch s c
      = ({ s with address := ((shl s.address 4 ||| nibble c) &&& 0xFFFF) ||| s.segment,
                  state := s.state + 1 }, []) := by
  unfold dispatch
  rcases h with h | h | h | h <;> simp [h]

theorem dispatch_type_first (s : Regs) (c : Nat) (h : s.state = 7) :
    dispatch s c
      = ({ s with record_type := (shl s.record_type 4 ||| nibble c) &&& 0xFF,
                  state := 8 }, []) := by
  unfold dispatch
  simp [h]

theorem dispatch_type_second (s : Regs) (c : Nat) (h : s.state = 8) :
    dispatch s c
      = ({ s with record_type := (shl s.record_type 4 ||| nibble c) &&& 0xFF,
                  state := if (shl s.record_type 4 ||| nibble c) &&& 0xFF = 0 then 14
                    else if (shl s.record_type 4 ||| nibble c) &&& 0xFF = 2 then 9 else 0 },
         if (shl s.record_type 4 ||| nibble c) &&& 0xFF = 1 then [Effect.print_hex s.sum]
           else []) := by
  unfold dispatch
  simp only [h]
  simp only [OfNat.ofNat_ne_zero, if_false, if_true]
  split_ifs <;> first | rfl | omega

theorem dispatch_segment (s : Regs) (c : Nat)
    (h : s.state = 9 ∨ s.state = 10 ∨ s.state = 11 ∨ s.state = 12) :
    dispatch s c
      = ({ s with segment := (shl s.segment 4 ||| nibble c) &&& 0xFFFF,
                  state := s.state + 1 }, []) := by
  unfold dispatch
  rcases h with h | h | h | h <;> simp [h]

theorem dispatch_segment_last (s : Regs) (c : Nat) (h : s.state = 13) :
    dispatch s c = ({ s with segment := shl s.segment 4, state := 0 }, []) := by
  unfold dispatch
  simp [h]

theorem dispatch_beyond (s : Regs) (c : Nat) (h : 21 < s.state) : dispatch s c = (s, []) := by
  unfold dispatch
  have e0 : ¬ s.state = 0 := by omega
  have e1 : ¬ (s.state = 1 ∨ s.state = 2) := by omega
  have e2 : ¬ (s.state = 3 ∨ s.state = 4 ∨ s.state = 5 ∨ s.state = 6) := by omega
  have e3 : ¬ s.state = 7 := by omega
  have e4 : ¬ s.state = 8 := by omega
  have e5 : ¬ (s.state = 9 ∨ s.state = 10 ∨ s.state = 11 ∨ s.state = 12) := by omega
  have e6 : ¬ s.state = 13 := by omega
  have e7 : ¬ (14 ≤ s.state ∧ s.state ≤ 21) := by omega
  simp only [e0, e1, e2, e3, e4, e5, e6, e7, if_false]

/-- The `switch` calls nothing, or `print_hex(sum)`, or `PUT32(address, _)`. -/
theorem dispatch_effects (s : Regs) (c : Nat) :
    (dispatch s c).2 = [] ∨ (dispatch s c).2 = [Effect.print_hex s.sum]
      ∨ ∃ v, (dispatch s c).2 = [Effect.PUT32 s.address v] := by
  by_cases h0 : s.state = 0
  · rw [dispatch_idle s c h0]; exact Or.inl rfl
  by_cases h1 : s.state = 1 ∨ s.state = 2
  · rw [dispatch_byte_count s c h1]; exact Or.inl rfl
  by_cases h2 : s.state = 3 ∨ s.state = 4 ∨ s.state = 5 ∨ s.state = 6
  · rw [dispatch_address s c h2]; exact Or.inl rfl
  by_cases h3 : s.state = 7
  · rw [dispatch_type_first s c h3]; exact Or.inl rfl
  by_cases h4 : s.state = 8
  · rw [dispatch_type_second s c h4]
    by_cases hv : (shl s.record_type 4 ||| nibble c) &&& 0xFF = 1
    · exact Or.inr (Or.inl (by simp only [hv, if_true]))
    · exact Or.inl (by simp only [hv, if_false])
  by_cases h5 : s.state = 9 ∨ s.state = 10 ∨ s.state = 11 ∨ s.state = 12
  · rw [dispatch_segment s c h5]; exact Or.inl rfl
  by_cases h6 : s.state = 13
  · rw [dispatch_segment_last s c h6]; exact Or.inl rfl
  by_cases h7 : s.state = 21
  · rw [dispatch_store s c h7]; exact Or.inr (Or.inr ⟨_, rfl⟩)
  by_cases h8 : 21 < s.state
  · rw [dispatch_beyond s c h8]; exact Or.inl rfl
  · rw [dispatch_data s c (by omega) (by omega)]; exact Or.inl rfl

/-- C3: from the initial values, the input `:0400000000001234AB\r\n:00000001FF\r\ng`
causes one `PUT32` with address 0 and value 0x34120000, then one `print_hex` of the
checksum accumulator (which is 0x34120000 then), then the acknowledgment and the branch
to 0x8000, and nothing else; the loop is left with no input remaining. -/
theorem C3_scenario_two_records :
    (load_program (codes ":0400000000001234AB\r\n:00000001FF\r\ng")).trace
        = [Effect.PUT32 0x0000 0x34120000, Effect.print_hex 0x34120000,
           Effect.put_string ack, Effect.BRANCHTO 0x8000]
    ∧ (load_program (codes ":0400000000001234AB\r\n:00000001FF\r\ng")).regs.sum = 0x34120000
    ∧ (load_program (codes ":0400000000001234AB\r\n:00000001FF\r\n")).regs.sum = 0x34120000
    ∧ (load_program (codes ":0400000000001234AB\r\n:00000001FF\r\ng")).halted = true
    ∧ (load_program (codes ":0400000000001234AB\r\n:00000001FF\r\ng")).rest = [] := by
  decide

/-- C4: in every parser state, `:` sets the state to 1 and changes nothing else, calls
nothing and does not leave the loop; the two hex digit characters that follow are then
shifted into the byte count, which becomes the byte they spell, and the state is 3. -/
theorem C4_colon_restarts (s : Regs) :
    iter s 58 = ({ s with state := 1 }, [], false)
    ∧ ∀ c1 c2 : Nat, isHexDigit c1 → isHexDigit c2 →
        load_program_from s [58, c1, c2]
          = { regs := { s with state := 3, byte_count := hexByte c1 c2 },
              trace := [], halted := false, rest := [] } := by
  refine ⟨by simp [iter], ?_⟩
  intro c1 c2 h1 h2
  have e : load_program_from s [58, c1, c2]
      = { load_program_from { s with state := 1 } [c1, c2] with
          trace := [] ++ (load_program_from { s with state := 1 } [c1, c2]).trace } := by
    simp [load_program_from, iter]
  rw [e, run_cons_plain _ c1 _ (hex_not_special c1 h1)]
  simp only [dispatch]
  simp only [true_or, if_true, OfNat.ofNat_ne_zero, OfNat.one_ne_ofNat, one_ne_zero, if_false]
  rw [run_cons_plain _ c2 _ (hex_not_special c2 h2)]
  simp only [dispatch, load_program_from, field8_two]
  rw [nibble_hex c1 h1, nibble_hex c2 h2]
  simp [hexByte]

/-- C4, at a parser in the middle of a data word, reading `:1F`. -/
theorem C4_colon_restarts_witness :
    load_program_from { atData with state := 17 } [58, 49, 70]
      = { regs := { atData with state := 3, byte_count := 0x1F },
          trace := [], halted := false, rest := [] } :=
  (C4_colon_restarts { atData with state := 17 }).2 49 70 (by decide) (by decide)

/-- C5: in every parser state, a carriage return or a line feed sets the state to 0,
calls nothing, does not leave the loop, and leaves byte count, address, record type,
segment, data accumulator and checksum accumulator as they were; this holds in the
data-field states 14..21 like in any other, so a partial word is never written. -/
theorem C5_line_end_to_idle (s : Regs) :
    iter s 13
        = ({ state := 0, byte_count := s.byte_count, address := s.address,
             record_type := s.record_type, segment := s.segment, data := s.data,
             sum := s.sum }, [], false)
    ∧ iter s 10
        = ({ state := 0, byte_count := s.byte_count, address := s.address,
             record_type := s.record_type, segment := s.segment, data := s.data,
             sum := s.sum }, [], false) := by
  constructor <;> simp [iter]

/-- A character other than `g` and `G` does not leave the loop and calls nothing but
`PUT32` and `print_hex`. -/
theorem iter_without_go (s : Regs) (c : Nat) (h : c ≠ 103 ∧ c ≠ 71) :
    (iter s c).2.2 = false
    ∧ ∀ e ∈ (iter s c).2.1, (∃ a v, e = Effect.PUT32 a v) ∨ (∃ v, e = Effect.print_hex v) := by
  by_cases hc : isSpecial c
  · have hc2 : c = 58 ∨ c = 13 ∨ c = 10 := by
      unfold isSpecial at hc; omega
    rcases hc2 with e | e | e <;> subst e <;> simp [iter]
  · rw [iter_plain s c hc]
    refine ⟨rfl, ?_⟩
    intro e he
    rcases dispatch_effects s c with h0 | h1 | ⟨v, h2⟩
    · rw [h0] at he; simp at he
    · rw [h1] at he; exact Or.inr ⟨_, by simpa using he⟩
    · rw [h2] at he; exact Or.inl ⟨_, _, by simpa using he⟩

/-- A run over characters other than `g` and `G` uses up its input without leaving the
loop and calls nothing but `PUT32` and `print_hex`. -/
theorem run_without_go (cs : List Nat) :
    ∀ s : Regs, (∀ c ∈ cs, c ≠ 103 ∧ c ≠ 71) →
      (load_program_from s cs).halted = false
      ∧ (load_program_from s cs).rest = []
      ∧ ∀ e ∈ (load_program_from s cs).trace,
          (∃ a v, e = Effect.PUT32 a v) ∨ (∃ v, e = Effect.print_hex v) := by
  induction cs with
  | nil => intro s _; simp [load_program_from]
  | cons c cs ih =>
    intro s h
    obtain ⟨h1, h2⟩ := iter_without_go s c (h c (List.mem_cons_self c cs))
    obtain ⟨i1, i2, i3⟩ := ih (iter s c).1 (fun x hx => h x (List.mem_cons_of_mem c hx))
    simp only [load_program_from, h1, Bool.false_eq_true, if_false]
    refine ⟨i1, i2, ?_⟩
    intro e he
    rcases List.mem_append.mp he with he | he
    · exact h2 e he
    · exact i3 e he

/-- C6: on an input whose first `g` or `G` comes after the characters `pre`, the loop
runs through `pre` without leaving and without a `BRANCHTO` or `put_string`; at the
`g`/`G`, whatever the parser state, it calls `put_string` with the acknowledgment and
`BRANCHTO(0x8000)`, no `PUT32`, and is left there, the later characters staying
unconsumed. -/
theorem C6_go_ends_loop (s : Regs) (pre post : List Nat) (g : Nat)
    (hg : g = 103 ∨ g = 71) (hpre : ∀ c ∈ pre, c ≠ 103 ∧ c ≠ 71) :
    (load_program_from s pre).halted = false
    ∧ (∀ a, Effect.BRANCHTO a ∉ (load_program_from s pre).trace)
    ∧ (∀ text, Effect.put_string text ∉ (load_program_from s pre).trace)
    ∧ load_program_from s (pre ++ g :: post)
        = { regs := { (load_program_from s pre).regs with state := 0 },
            trace := (load_program_from s pre).trace
              ++ [Effect.put_string ack, Effect.BRANCHTO 0x8000],
            halted := true, rest := post } := by
  obtain ⟨h1, _, h3⟩ := run_without_go pre s hpre
  refine ⟨h1, ?_, ?_, ?_⟩
  · intro a ha
    rcases h3 _ ha with ⟨_, _, e⟩ | ⟨_, e⟩ <;> cases e
  · intro a ha
    rcases h3 _ ha with ⟨_, _, e⟩ | ⟨_, e⟩ <;> cases e
  · rw [run_append pre (g :: post) s h1]
    rcases hg with e | e <;> subst e <;> simp [load_program_from, iter, RPI_BOOT]

/-- C6, for the input `:04g0G` read in the middle of a data word. -/
theorem C6_go_ends_loop_witness :
    load_program_from { atData with state := 17 } ([58, 48, 52] ++ 103 :: [48, 71])
      = { regs := { (load_program_from { atData with state := 17 } [58, 48, 52]).regs with
                    state := 0 },
          trace := (load_program_from { atData with state := 17 } [58, 48, 52]).trace
            ++ [Effect.put_string ack, Effect.BRANCHTO 0x8000],
          halted := true, rest := [48, 71] } :=
  (C6_go_ends_loop { atData with state := 17 } [58, 48, 52] [48, 71] 103 (by decide)
    (by decide)).2.2.2

/-- The two record-type characters, read in states 7 and 8. -/
theorem type_run (s : Regs) (t1 t2 : Nat) (hs : s.state = 7) (n1 : ¬ isSpecial t1)
    (n2 : ¬ isSpecial t2) :
    load_program_from s [t1, t2]
      = { regs := { s with record_type := 16 * nibble t1 + nibble t2,
                           state := if 16 * nibble t1 + nibble t2 = 0 then 14
                             else if 16 * nibble t1 + nibble t2 = 2 then 9 else 0 },
          trace := if 16 * nibble t1 + nibble t2 = 1 then [Effect.print_hex s.sum] else [],
          halted := false, rest := [] } := by
  rw [run_cons_plain s t1 _ n1, dispatch_type_first s t1 hs, run_cons_plain _ t2 _ n2,
    dispatch_type_second _ t2 rfl]
  simp only [field8_two, load_program_from, List.append_nil, List.nil_append]

/-- In state 0 every character other than `:`, `g`, `G` leaves all variables alone. -/
theorem idle_run (cs : List Nat) :
    ∀ s : Regs, s.state = 0 → (∀ c ∈ cs, c ≠ 58 ∧ c ≠ 103 ∧ c ≠ 71) →
      load_program_from s cs = { regs := s, trace := [], halted := false, rest := [] } := by
  induction cs with
  | nil => intro s _ _; rfl
  | cons c cs ih =>
    intro s hs h
    have hc := h c (List.mem_cons_self c cs)
    have hi : iter s c = (s, [], false) := by
      obtain ⟨st, bc, ad, rt, sg, d, sm⟩ := s
      simp only at hs
      subst hs
      by_cases h1 : c = 13 ∨ c = 10
      · rcases h1 with e | e <;> subst e <;> simp [iter]
      · rw [iter_plain _ c (by unfold isSpecial; omega), dispatch_idle _ c rfl]
    simp only [load_program_from, hi, Bool.false_eq_true, if_false, List.nil_append]
    rw [ih s hs (fun x hx => h x (List.mem_cons_of_mem c hx))]

/-- The two record-type characters when they are hex digits: the byte they spell
decides the next state and whether the checksum accumulator is printed. -/
theorem type_run_hex (s : Regs) (t1 t2 : Nat) (hs : s.state = 7)
    (h1 : isHexDigit t1) (h2 : isHexDigit t2) :
    load_program_from s [t1, t2]
      = { regs := { state := if hexByte t1 t2 = 0 then 14
                      else if hexByte t1 t2 = 2 then 9 else 0,
                    byte_count := s.byte_count, address := s.address,
                    record_type := hexByte t1 t2, segment := s.segment, data := s.data,
                    sum := s.sum },
          trace := if hexByte t1 t2 = 1 then [Effect.print_hex s.sum] else [],
          halted := false, rest := [] } := by
  rw [type_run s t1 t2 hs (hex_not_special t1 h1) (hex_not_special t2 h2),
    nibble_hex t1 h1, nibble_hex t2 h2]
  rfl

/-- C7: whatever the record type field held, after the two hex digit characters t1 t2
are read in states 7 and 8 the record type is the byte v they spell, and: v = 0 gives
state 14, v = 2 gives state 9, v = 1 gives one `print_hex` of the checksum accumulator
and state 0, any other v gives state 0 and no call; no case calls `PUT32`, and no other
variable changes. -/
theorem C7_record_type_dispatch (s : Regs) (t1 t2 : Nat) (hs : s.state = 7)
    (h1 : isHexDigit t1) (h2 : isHexDigit t2) :
    load_program_from s [t1, t2]
      = { regs := { state := if hexByte t1 t2 = 0 then 14
                      else if hexByte t1 t2 = 2 then 9 else 0,
                    byte_count := s.byte_count, address := s.address,
                    record_type := hexByte t1 t2, segment := s.segment, data := s.data,
                    sum := s.sum },
          trace := if hexByte t1 t2 = 1 then [Effect.print_hex s.sum] else [],
          halted := false, rest := [] } :=
  type_run_hex s t1 t2 hs h1 h2

/-- C7, for the type digits `01` and a record type field that held 0xAB. -/
theorem C7_record_type_dispatch_witness :
    load_program_from { atData with state := 7, record_type := 0xAB } [48, 49]
      = { regs := { atData with state := 0, record_type := 1 },
          trace := [Effect.print_hex 7], halted := false, rest := [] } :=
  C7_record_type_dispatch { atData with state := 7, record_type := 0xAB } 48 49 rfl
    (by decide) (by decide)

/-- C8: when the type byte v spelled by t1 t2 is none of 0, 1, 2, the type byte and any
characters after it up to the next `:` (no `g`, `G` among them) cause no call at all;
the state is 0 after the type byte and after every further character, no variable
changes after the type byte, and the next `:` sets the state to 1. -/
theorem C8_unknown_type_ignored (s : Regs) (t1 t2 : Nat) (junk : List Nat)
    (hs : s.state = 7) (h1 : isHexDigit t1) (h2 : isHexDigit t2)
    (hv : hexByte t1 t2 ≠ 0 ∧ hexByte t1 t2 ≠ 1 ∧ hexByte t1 t2 ≠ 2)
    (hj : ∀ c ∈ junk, c ≠ 58 ∧ c ≠ 103 ∧ c ≠ 71) :
    load_program_from s [t1, t2]
        = { regs := { s with state := 0, record_type := hexByte t1 t2 },
            trace := [], halted := false, rest := [] }
    ∧ load_program_from s ([t1, t2] ++ junk)
        = { regs := { s with state := 0, record_type := hexByte t1 t2 },
            trace := [], halted := false, rest := [] }
    ∧ load_program_from s ([t1, t2] ++ junk ++ [58])
        = { regs := { s with state := 1, record_type := hexByte t1 t2 },
            trace := [], halted := false, rest := [] } := by
  have e1 : load_program_from s [t1, t2]
      = { regs := { s with state := 0, record_type := hexByte t1 t2 },
          trace := [], halted := false, rest := [] } := by
    rw [type_run_hex s t1 t2 hs h1 h2]
    simp [hv.1, hv.2.1, hv.2.2]
  have e2 : load_program_from s ([t1, t2] ++ junk)
      = { regs := { s with state := 0, record_type := hexByte t1 t2 },
          trace := [], halted := false, rest := [] } := by
    rw [run_append [t1, t2] junk s (by rw [e1]), e1]
    simp only []
    rw [idle_run junk _ rfl hj]
    rfl
  refine ⟨e1, e2, ?_⟩
  rw [run_append ([t1, t2] ++ junk) [58] s (by rw [e2]), e2]
  simp [load_program_from, iter]

/-- C8, for the type digits `05` followed by `0A1B`, a line end and `zz`. -/
theorem C8_unknown_type_ignored_witness :
    load_program_from { atData with state := 7 } ([48, 53] ++ [48, 65, 49, 66, 13, 10, 122, 122])
        = { regs := { atData with state := 0, record_type := hexByte 48 53 },
            trace := [], halted := false, rest := [] }
    ∧ load_program_from { atData with state := 7 }
          ([48, 53] ++ [48, 65, 49, 66, 13, 10, 122, 122] ++ [58])
        = { regs := { atData with state := 1, record_type := hexByte 48 53 },
            trace := [], halted := false, rest := [] } :=
  (C8_unknown_type_ignored { atData with state := 7 } 48 53
    [48, 65, 49, 66, 13, 10, 122, 122] rfl (by decide) (by decide) (by decide)
    (by decide)).2

/-- C9: whatever the segment field held, after four hex digit characters spelling the
16-bit value S and one more character (none of `:`, CR, LF, `g`, `G`) are read in
states 9..13, the segment is S shifted left by 4 bits whatever that fifth character
is, the state is 0, nothing was called and no other variable changed. -/
theorem C9_segment_record (s : Regs) (d1 d2 d3 d4 x : Nat) (hs : s.state = 9)
    (h1 : isHexDigit d1) (h2 : isHexDigit d2) (h3 : isHexDigit d3) (h4 : isHexDigit d4)
    (hx : ¬ isSpecial x) :
    load_program_from s [d1, d2, d3, d4, x]
      = { regs := { state := 0, byte_count := s.byte_count, address := s.address,
                    record_type := s.record_type,
                    segment := (hexByte d1 d2 * 2 ^ 8 + hexByte d3 d4) <<< 4,
                    data := s.data, sum := s.sum },
          trace := [], halted := false, rest := [] } := by
  have b1 := hexByte_lt d1 d2 h1 h2
  have b2 := hexByte_lt d3 d4 h3 h4
  rw [run_cons_plain s d1 _ (hex_not_special d1 h1), dispatch_segment s d1 (Or.inl hs),
    run_cons_plain _ d2 _ (hex_not_special d2 h2),
    dispatch_segment _ d2 (Or.inr (Or.inl (by simp [hs]))),
    run_cons_plain _ d3 _ (hex_not_special d3 h3),
    dispatch_segment _ d3 (Or.inr (Or.inr (Or.inl (by simp [hs])))),
    run_cons_plain _ d4 _ (hex_not_special d4 h4),
    dispatch_segment _ d4 (Or.inr (Or.inr (Or.inr (by simp [hs])))),
    run_cons_plain _ x _ hx, dispatch_segment_last _ x (by simp [hs])]
  simp only [field16_four, load_program_from, List.append_nil, List.nil_append]
  rw [nibble_hex d1 h1, nibble_hex d2 h2, nibble_hex d3 h3, nibble_hex d4 h4]
  have e : shl ((16 * hexValue d1 + hexValue d2) * 256 + (16 * hexValue d3 + hexValue d4)) 4
      = (hexByte d1 d2 * 2 ^ 8 + hexByte d3 d4) <<< 4 := by
    unfold shl U32 hexByte at *
    rw [Nat.shiftLeft_eq]
    norm_num
    omega
  rw [e]

/-- C9, for the segment digits `1234`, the fifth character `F` and a segment field
that held 0xFFFFF. -/
theorem C9_segment_record_witness :
    load_program_from { atData with state := 9, segment := 0xFFFFF } [49, 50, 51, 52, 70]
      = { regs := { atData with state := 0, segment := 0x12340 },
          trace := [], halted := false, rest := [] } :=
  C9_segment_record { atData with state := 9, segment := 0xFFFFF } 49 50 51 52 70 rfl
    (by decide) (by decide) (by decide) (by decide) (by decide)

/-- One address digit when the low 16 bits of the segment are zero: the segment is
only added on top of the 16-bit value. -/
theorem address_step_aligned (a c seg : Nat) (hseg : seg % 65536 = 0) :
    ((shl a 4 ||| nibble c) &&& 0xFFFF) ||| seg = seg + (a * 16 + nibble c) % 65536 := by
  have hn := nibble_lt c
  rw [shl_lor_nibble _ _ hn, land_ffff, Nat.lor_comm]
  have e : seg = 2 ^ 16 * (seg / 65536) := by omega
  have hlt : (a * 16 % 4294967296 + nibble c) % 65536 < 2 ^ 16 := by omega
  have h := Nat.mul_add_lt_is_or hlt (seg / 65536)
  rw [← e] at h
  rw [← h]
  omega

/-- The four address characters when the low 16 bits of the segment are zero: the
address is the 16-bit value they spell OR'd with the segment. -/
theorem address_run_aligned (s : Regs) (a1 a2 a3 a4 : Nat) (hs : s.state = 3)
    (hseg : s.segment % 65536 = 0)
    (h1 : isHexDigit a1) (h2 : isHexDigit a2) (h3 : isHexDigit a3) (h4 : isHexDigit a4) :
    load_program_from s [a1, a2, a3, a4]
      = { regs := { s with state := 7,
                           address := (hexByte a1 a2 * 2 ^ 8 + hexByte a3 a4) ||| s.segment },
          trace := [], halted := false, rest := [] } := by
  have b1 := hexByte_lt a1 a2 h1 h2
  have b2 := hexByte_lt a3 a4 h3 h4
  have v1 := hexValue_lt a1 h1
  have v2 := hexValue_lt a2 h2
  have v3 := hexValue_lt a3 h3
  have v4 := hexValue_lt a4 h4
  rw [run_cons_plain s a1 _ (hex_not_special a1 h1), dispatch_address s a1 (Or.inl hs),
    run_cons_plain _ a2 _ (hex_not_special a2 h2),
    dispatch_address _ a2 (Or.inr (Or.inl (by simp [hs]))),
    run_cons_plain _ a3 _ (hex_not_special a3 h3),
    dispatch_address _ a3 (Or.inr (Or.inr (Or.inl (by simp [hs])))),
    run_cons_plain _ a4 _ (hex_not_special a4 h4),
    dispatch_address _ a4 (Or.inr (Or.inr (Or.inr (by simp [hs]))))]
  simp only [address_step_aligned _ _ _ hseg, load_program_from, List.append_nil,
    List.nil_append, hs]
  rw [nibble_hex a1 h1, nibble_hex a2 h2, nibble_hex a3 h3, nibble_hex a4 h4]
  have e : (hexByte a1 a2 * 2 ^ 8 + hexByte a3 a4) ||| s.segment
      = s.segment + (hexByte a1 a2 * 256 + hexByte a3 a4) := by
    have es : s.segment = 2 ^ 16 * (s.segment / 65536) := by omega
    have hlt : hexByte a1 a2 * 256 + hexByte a3 a4 < 2 ^ 16 := by omega
    have h := Nat.mul_add_lt_is_or hlt (s.segment / 65536)
    rw [← es] at h
    rw [Nat.lor_comm, show (2 : Nat) ^ 8 = 256 by norm_num, ← h]
  rw [e]
  have ev : (((s.segment + ((s.segment + ((s.segment + (s.address * 16 + hexValue a1) % 65536)
      * 16 + hexValue a2) % 65536) * 16 + hexValue a3) % 65536) * 16 + hexValue a4) % 65536)
      = hexByte a1 a2 * 256 + hexByte a3 a4 := by
    unfold hexByte
    omega
  rw [ev]

/-- C10 fails on the code: the Extended Segment Address record `:020000020001FB` leaves
the segment 0x10, and the address digits `0000` of the next record then leave the
address 0x1110, not 0x0000 OR 0x10 = 0x0010, because the segment OR'd in after each
digit is shifted along with the next digit; the data word of that record is written at
0x1110. -/
theorem C10_address_keeps_shifted_segment :
    (load_program (codes ":020000020001FB\r\n")).regs.segment = 0x10
    ∧ (load_program (codes ":020000020001FB\r\n:040000")).regs.address = 0x1110
    ∧ (load_program (codes ":020000020001FB\r\n:040000")).regs.state = 7
    ∧ (0x0000 ||| 0x10 : Nat) = 0x0010
    ∧ (load_program (codes ":020000020001FB\r\n:0400000078563412E8\r\n")).trace
        = [Effect.PUT32 0x1110 0x12345678] := by
  decide

/-! ## Reasoning by cases of the `switch` -/

/-- A property holds of the result of the `switch` when it holds in each case. -/
theorem dispatch_elim (P : Regs × List Effect → Prop) (s : Regs) (c : Nat)
    (h0 : s.state = 0 → P (s, []))
    (h1 : s.state = 1 ∨ s.state = 2 →
      P ({ s with byte_count := (shl s.byte_count 4 ||| nibble c) &&& 0xFF,
                  state := s.state + 1 }, []))
    (h3 : s.state = 3 ∨ s.state = 4 ∨ s.state = 5 ∨ s.state = 6 →
      P ({ s with address := ((shl s.address 4 ||| nibble c) &&& 0xFFFF) ||| s.segment,
                  state := s.state + 1 }, []))
    (h7 : s.state = 7 →
      P ({ s with record_type := (shl s.record_type 4 ||| nibble c) &&& 0xFF,
                  state := 8 }, []))
    (h8 : s.state = 8 →
      P ({ s with record_type := (shl s.record_type 4 ||| nibble c) &&& 0xFF,
                  state := if (shl s.record_type 4 ||| nibble c) &&& 0xFF = 0 then 14
                    else if (shl s.record_type 4 ||| nibble c) &&& 0xFF = 2 then 9 else 0 },
         if (shl s.record_type 4 ||| nibble c) &&& 0xFF = 1 then [Effect.print_hex s.sum]
           else []))
    (h9 : s.state = 9 ∨ s.state = 10 ∨ s.state = 11 ∨ s.state = 12 →
      P ({ s with segment := (shl s.segment 4 ||| nibble c) &&& 0xFFFF,
                  state := s.state + 1 }, []))
    (h13 : s.state = 13 → P ({ s with segment := shl s.segment 4, state := 0 }, []))
    (h14 : 14 ≤ s.state ∧ s.state ≤ 20 →
      P ({ s with data := shl s.data 4 ||| nibble c, state := s.state + 1 }, []))
    (h21 : s.state = 21 →
      P ({ s with data := swap (shl s.data 4 ||| nibble c),
                  sum := ((s.sum + s.address) % U32 + swap (shl s.data 4 ||| nibble c)) % U32,
                  address := (s.address + 4) % U32,
                  state := 14 },
         [Effect.PUT32 s.address (swap (shl s.data 4 ||| nibble c))]))
    (hb : 21 < s.state → P (s, [])) :
    P (dispatch s c) := by
  by_cases e0 : s.state = 0
  · rw [dispatch_idle s c e0]; exact h0 e0
  by_cases e1 : s.state = 1 ∨ s.state = 2
  · rw [dispatch_byte_count s c e1]; exact h1 e1
  by_cases e3 : s.state = 3 ∨ s.state = 4 ∨ s.state = 5 ∨ s.state = 6
  · rw [dispatch_address s c e3]; exact h3 e3
  by_cases e7 : s.state = 7
  · rw [dispatch_type_first s c e7]; exact h7 e7
  by_cases e8 : s.state = 8
  · rw [dispatch_type_second s c e8]; exact h8 e8
  by_cases e9 : s.state = 9 ∨ s.state = 10 ∨ s.state = 11 ∨ s.state = 12
  · rw [dispatch_segment s c e9]; exact h9 e9
  by_cases e13 : s.state = 13
  · rw [dispatch_segment_last s c e13]; exact h13 e13
  by_cases e21 : s.state = 21
  · rw [dispatch_store s c e21]; exact h21 e21
  by_cases eb : 21 < s.state
  · rw [dispatch_beyond s c eb]; exact hb eb
  · rw [dispatch_data s c (by omega) (by omega)]; exact h14 ⟨by omega, by omega⟩

/-- A character handled before the `switch` only sets the state; `g`/`G` also gives
the acknowledgment and the branch. -/
theorem iter_special (s : Regs) (c : Nat) (h : isSpecial c) :
    (iter s c).1 = { s with state := if c = 58 then 1 else 0 }
    ∧ ((iter s c).2.1 = []
        ∨ (iter s c).2.1 = [Effect.put_string ack, Effect.BRANCHTO RPI_BOOT]) := by
  unfold isSpecial at h
  rcases h with e | e | e | e | e <;> subst e <;> simp [iter]

/-! ## The checksum accumulator -/

theorem checksum_append (xs ys : List Effect) :
    checksum (xs ++ ys) = checksum xs + checksum ys := by
  induction xs with
  | nil => simp [checksum]
  | cons e xs ih =>
    cases e <;> simp [checksum, ih]
    omega

/-- One pass of the loop adds to the checksum accumulator address + value of the
`PUT32` it makes, and nothing otherwise. -/
theorem iter_sum (s : Regs) (c : Nat) (hs : s.sum < U32) :
    (iter s c).1.sum = (s.sum + checksum (iter s c).2.1) % U32 := by
  by_cases hc : isSpecial c
  · obtain ⟨h1, h2⟩ := iter_special s c hc
    rw [h1]
    rcases h2 with h2 | h2 <;> rw [h2] <;> simp [checksum, Nat.mod_eq_of_lt hs]
  · rw [iter_plain s c hc]
    refine dispatch_elim (fun r => r.1.sum = (s.sum + checksum r.2) % U32) s c
      ?_ ?_ ?_ ?_ ?_ ?_ ?_ ?_ ?_ ?_
    all_goals intro _
    all_goals try simp only [checksum, Nat.add_zero, Nat.mod_eq_of_lt hs]
    · split_ifs <;> simp [checksum, Nat.mod_eq_of_lt hs]
    · unfold U32; omega

theorem run_sum (cs : List Nat) :
    ∀ s : Regs, s.sum < U32 →
      (load_program_from s cs).regs.sum
        = (s.sum + checksum (load_program_from s cs).trace) % U32 := by
  induction cs with
  | nil => intro s hs; simp [load_program_from, checksum, Nat.mod_eq_of_lt hs]
  | cons c cs ih =>
    intro s hs
    have h1 := iter_sum s c hs
    have h2 : (iter s c).1.sum < U32 := by
      rw [h1]; exact Nat.mod_lt _ (by unfold U32; omega)
    by_cases hb : (iter s c).2.2 = true
    · simp only [load_program_from, hb, if_true]
      exact h1
    · simp only [load_program_from, hb, Bool.false_eq_true, if_false]
      rw [ih _ h2, h1, checksum_append]
      unfold U32
      omega

/-- C11: from the initial values, after any input (so after any prefix of a stream)
the checksum accumulator is the sum modulo 2^32 of address + value over the `PUT32`
calls made so far, each address being the one passed to `PUT32`. -/
theorem C11_checksum_is_sum_of_writes (cs : List Nat) :
    (load_program cs).regs.sum = checksum (load_program cs).trace % 2 ^ 32 := by
  have h := run_sum cs init (by decide)
  simpa [load_program, init, U32] using h

/-! ## Decoding a character -/

/-- The rule gives the hexadecimal value for the lowercase letters `a`..`f` too. -/
theorem nibble_lowercase (c : Nat) (h1 : 97 ≤ c) (h2 : c ≤ 102) :
    nibble c = c - 97 + 10 := by
  unfold nibble
  rw [land_f]
  split_ifs <;> omega

/-- The two characters after `:` fill the byte count. -/
theorem byte_count_run (s : Regs) (c1 c2 : Nat) (n1 : ¬ isSpecial c1)
    (n2 : ¬ isSpecial c2) :
    load_program_from s [58, c1, c2]
      = { regs := { s with state := 3, byte_count := 16 * nibble c1 + nibble c2 },
          trace := [], halted := false, rest := [] } := by
  have e : load_program_from s [58, c1, c2]
      = { load_program_from { s with state := 1 } [c1, c2] with
          trace := [] ++ (load_program_from { s with state := 1 } [c1, c2]).trace } := by
    simp [load_program_from, iter]
  rw [e, run_cons_plain _ c1 _ n1, dispatch_byte_count _ c1 (Or.inl rfl),
    run_cons_plain _ c2 _ n2, dispatch_byte_count _ c2 (Or.inr rfl)]
  simp only [load_program_from, field8_two]
  rfl

/-- C12: for a character among `0`..`9`, `A`..`F` the decoding rule (subtract 7 above
0x39, mask with 0x0F) gives its hexadecimal value, which is at most 15; and after `:`
and two such characters the byte count is the byte they spell, whatever it held. -/
theorem C12_nibble_decoding (s : Regs) (c1 c2 : Nat) (h1 : isHexDigit c1)
    (h2 : isHexDigit c2) :
    nibble c1 = hexValue c1 ∧ hexValue c1 ≤ 15
    ∧ (load_program_from s [58, c1, c2]).regs.byte_count = hexByte c1 c2 := by
  have v1 := hexValue_lt c1 h1
  refine ⟨nibble_hex c1 h1, by omega, ?_⟩
  rw [byte_count_run s c1 c2 (hex_not_special c1 h1) (hex_not_special c2 h2),
    nibble_hex c1 h1, nibble_hex c2 h2]
  rfl

/-- C12, for the characters `F` and `9` and a byte count that held 4. -/
theorem C12_nibble_decoding_witness :
    nibble 70 = hexValue 70 ∧ hexValue 70 ≤ 15
    ∧ (load_program_from atData [58, 70, 57]).regs.byte_count = hexByte 70 57 :=
  C12_nibble_decoding atData 70 57 (by decide) (by decide)

/-- C17 fails on the code: no lowercase letter among `a`..`f` (codes 97..102) is decoded
to anything but its hexadecimal value. -/
theorem C17_no_lowercase_miscomputed :
    ¬ ∃ c : Nat, 97 ≤ c ∧ c ≤ 102 ∧ nibble c ≠ c - 97 + 10 := by
  rintro ⟨c, h1, h2, h3⟩
  exact h3 (nibble_lowercase c h1 h2)

/-- C17 as amended: for every lowercase letter among `a`..`f` the decoding rule
(character code minus 7, masked with 0x0F) gives its hexadecimal value 10..15. -/
theorem C17_lowercase_decoded (c : Nat) (h1 : 97 ≤ c) (h2 : c ≤ 102) :
    nibble c = c - 97 + 10 ∧ 10 ≤ nibble c ∧ nibble c ≤ 15 := by
  have h := nibble_lowercase c h1 h2
  omega

/-- C17 as amended, for the letter `f`. -/
theorem C17_lowercase_decoded_witness : nibble 102 = 15 ∧ 10 ≤ nibble 102 ∧ nibble 102 ≤ 15 :=
  C17_lowercase_decoded 102 (by decide) (by decide)

/-! ## Frame and occurrence of the calls -/

/-- Outside the cases 9..13 the `switch` leaves the segment alone. -/
theorem dispatch_segment_frame (s : Regs) (c : Nat) (h : ¬ (9 ≤ s.state ∧ s.state ≤ 13)) :
    (dispatch s c).1.segment = s.segment := by
  refine dispatch_elim (fun r => r.1.segment = s.segment) s c
    ?_ ?_ ?_ ?_ ?_ ?_ ?_ ?_ ?_ ?_
  all_goals intro h'
  all_goals first
    | rfl
    | (exfalso; omega)

/-- C18: a pass of the loop leaves the segment exactly as it was unless the parser is
in one of the states 9..13 and the character is none of `:`, CR, LF, `g`, `G`; so Idle,
byte count, address, record type and data-field steps, `:`, line ends, `g`/`G` and the
completion of Data, End-of-file and unrecognised records never change it nor reset it
to zero. -/
theorem C18_segment_persists (s : Regs) (c : Nat)
    (h : ¬ (9 ≤ s.state ∧ s.state ≤ 13 ∧ ¬ isSpecial c)) :
    (iter s c).1.segment = s.segment := by
  by_cases hc : isSpecial c
  · rw [(iter_special s c hc).1]
  · rw [iter_plain s c hc]
    exact dispatch_segment_frame s c (fun h' => h ⟨h'.1, h'.2, hc⟩)

/-- C18, for the step that completes a data word with the segment 0x12340, and for a
`:` read in the segment state 11. -/
theorem C18_segment_persists_witness :
    (iter { atData with state := 21, segment := 0x12340 } 70).1.segment = 0x12340
    ∧ (iter { atData with state := 11, segment := 0x12340 } 58).1.segment = 0x12340 :=
  ⟨C18_segment_persists { atData with state := 21, segment := 0x12340 } 70 (by decide),
   C18_segment_persists { atData with state := 11, segment := 0x12340 } 58 (by decide)⟩

/-- What the `switch` calls, by state. -/
theorem dispatch_calls (s : Regs) (c : Nat) :
    (s.state = 21 ∧ ∃ v, (dispatch s c).2 = [Effect.PUT32 s.address v])
    ∨ (s.state = 8 ∧ (dispatch s c).1.record_type = 1
        ∧ (dispatch s c).2 = [Effect.print_hex s.sum])
    ∨ (s.state ≠ 21 ∧ (s.state = 8 → (dispatch s c).1.record_type ≠ 1)
        ∧ (dispatch s c).2 = []) := by
  refine dispatch_elim (fun r =>
      (s.state = 21 ∧ ∃ v, r.2 = [Effect.PUT32 s.address v])
      ∨ (s.state = 8 ∧ r.1.record_type = 1 ∧ r.2 = [Effect.print_hex s.sum])
      ∨ (s.state ≠ 21 ∧ (s.state = 8 → r.1.record_type ≠ 1) ∧ r.2 = [])) s c
    ?_ ?_ ?_ ?_ ?_ ?_ ?_ ?_ ?_ ?_
  · intro h; exact Or.inr (Or.inr ⟨by omega, by omega, rfl⟩)
  · intro h; exact Or.inr (Or.inr ⟨by omega, by omega, rfl⟩)
  · intro h; exact Or.inr (Or.inr ⟨by omega, by omega, rfl⟩)
  · intro h; exact Or.inr (Or.inr ⟨by omega, by omega, rfl⟩)
  · intro h
    by_cases hv : (shl s.record_type 4 ||| nibble c) &&& 0xFF = 1
    · exact Or.inr (Or.inl ⟨h, hv, by simp only [hv, if_true]⟩)
    · exact Or.inr (Or.inr ⟨by omega, fun _ => hv, by simp only [hv, if_false]⟩)
  · intro h; exact Or.inr (Or.inr ⟨by omega, by omega, rfl⟩)
  · intro h; exact Or.inr (Or.inr ⟨by omega, by omega, rfl⟩)
  · intro h; exact Or.inr (Or.inr ⟨by omega, by omega, rfl⟩)
  · intro h; exact Or.inl ⟨h, _, rfl⟩
  · intro h; exact Or.inr (Or.inr ⟨by omega, by omega, rfl⟩)

/-- C19: a pass of the loop calls `PUT32` if and only if the state is 21 and the
character is none of `:`, CR, LF, `g`, `G`, and then it calls exactly that one `PUT32`
(at the address field) and nothing else; it calls `print_hex` if and only if the state
is 8, the character is folded in as the second type digit and the record type it
completes is 0x01, and then it calls exactly `print_hex` of the checksum accumulator,
once, and nothing else; no pass prints any other value. So no `PUT32` happens in the
header states 1..8, the segment states 9..13 or state 0. -/
theorem C19_write_and_print_steps (s : Regs) (c : Nat) :
    ((∃ a v, Effect.PUT32 a v ∈ (iter s c).2.1) ↔ (s.state = 21 ∧ ¬ isSpecial c))
    ∧ ((s.state = 21 ∧ ¬ isSpecial c) → ∃ v, (iter s c).2.1 = [Effect.PUT32 s.address v])
    ∧ ((∃ v, Effect.print_hex v ∈ (iter s c).2.1)
        ↔ (s.state = 8 ∧ ¬ isSpecial c ∧ (iter s c).1.record_type = 1))
    ∧ (s.state ≤ 13 → ∀ a v, Effect.PUT32 a v ∉ (iter s c).2.1)
    ∧ (Effect.print_hex s.sum ∈ (iter s c).2.1
        ↔ (s.state = 8 ∧ ¬ isSpecial c ∧ (iter s c).1.record_type = 1))
    ∧ ((s.state = 8 ∧ ¬ isSpecial c ∧ (iter s c).1.record_type = 1) →
        (iter s c).2.1 = [Effect.print_hex s.sum])
    ∧ (∀ v, Effect.print_hex v ∈ (iter s c).2.1 → v = s.sum) := by
  by_cases hc : isSpecial c
  · have hno : (∀ a v, Effect.PUT32 a v ∉ (iter s c).2.1)
        ∧ (∀ v, Effect.print_hex v ∉ (iter s c).2.1) := by
      rcases (iter_special s c hc).2 with h | h <;> rw [h] <;> simp
    refine ⟨⟨?_, fun h => absurd hc h.2⟩, fun h => absurd hc h.2,
      ⟨?_, fun h => absurd hc h.2.1⟩, fun _ => hno.1,
      ⟨fun h => absurd h (hno.2 _), fun h => absurd hc h.2.1⟩, fun h => absurd hc h.2.1,
      fun v h => absurd h (hno.2 v)⟩
    · rintro ⟨a, v, h⟩; exact absurd h (hno.1 a v)
    · rintro ⟨v, h⟩; exact absurd h (hno.2 v)
  · rw [iter_plain s c hc]
    rcases dispatch_calls s c with ⟨h21, v, hv⟩ | ⟨h8, hrt, hp⟩ | ⟨hn, h8, he⟩
    · simp only [hv]
      refine ⟨⟨fun _ => ⟨h21, hc⟩, fun _ => ⟨_, _, List.mem_singleton.mpr rfl⟩⟩,
        fun _ => ⟨v, rfl⟩, ⟨?_, fun h => by omega⟩, fun h => by omega,
        ⟨?_, fun h => by omega⟩, fun h => by omega, ?_⟩
      · rintro ⟨w, h⟩
        simp at h
      · intro h
        simp at h
      · intro w h
        simp at h
    · simp only [hp]
      refine ⟨⟨?_, fun h => by omega⟩, fun h => by omega,
        ⟨fun _ => ⟨h8, hc, hrt⟩, fun _ => ⟨_, List.mem_singleton.mpr rfl⟩⟩, ?_,
        ⟨fun _ => ⟨h8, hc, hrt⟩, fun _ => List.mem_singleton.mpr rfl⟩, fun _ => trivial, ?_⟩
      · rintro ⟨a, w, h⟩
        simp at h
      · intro _ a w h
        simp at h
      · intro w h
        simpa using h
    · simp only [he]
      refine ⟨⟨?_, fun h => absurd h.1 hn⟩, fun h => absurd h.1 hn,
        ⟨?_, fun h => absurd h.2.2 (h8 h.1)⟩, ?_,
        ⟨?_, fun h => absurd h.2.2 (h8 h.1)⟩, fun h => absurd h.2.2 (h8 h.1), ?_⟩
      · rintro ⟨a, w, h⟩
        simp at h
      · rintro ⟨w, h⟩
        simp at h
      · intro _ a w h
        simp at h
      · intro h
        simp at h
      · intro w h
        simp at h

/-- C19, for the step that completes a data word at `atData`, and for the second type
digit `1` after a first digit `0`, which prints the checksum accumulator 7. -/
theorem C19_write_and_print_steps_witness :
    (∃ v, (iter { atData with state := 21 } 70).2.1
      = [Effect.PUT32 ({ atData with state := 21 } : Regs).address v])
    ∧ (iter { atData with state := 8 } 49).2.1 = [Effect.print_hex 7] :=
  ⟨(C19_write_and_print_steps { atData with state := 21 } 70).2.1 ⟨rfl, by decide⟩,
   (C19_write_and_print_steps { atData with state := 8 } 49).2.2.2.2.2.1
     ⟨rfl, by decide, by decide⟩⟩

/-! ## Bounds on the variables -/

theorem land_ff_le (x : Nat) : x &&& 0xFF ≤ 0xFF := Nat.and_le_right

theorem iter_invariant (s : Regs) (c : Nat) (h : Invariant s) : Invariant (iter s c).1 := by
  obtain ⟨⟨h1, h2, h3, h4⟩, h5⟩ := h
  by_cases hc : isSpecial c
  · rw [(iter_special s c hc).1]
    refine ⟨⟨?_, h2, h3, h4⟩, ?_⟩
    · show (if c = 58 then 1 else 0) ≤ 21
      split_ifs <;> omega
    · show (10 ≤ (if c = 58 then 1 else 0) ∧ (if c = 58 then 1 else 0) ≤ 13) → _
      split_ifs <;> omega
  · rw [iter_plain s c hc]
    refine dispatch_elim (fun r => Invariant r.1) s c ?_ ?_ ?_ ?_ ?_ ?_ ?_ ?_ ?_ ?_
    · intro _; exact ⟨⟨h1, h2, h3, h4⟩, h5⟩
    · intro h
      exact ⟨⟨by show s.state + 1 ≤ 21; omega, land_ff_le _, h3, h4⟩,
        by show (10 ≤ s.state + 1 ∧ s.state + 1 ≤ 13) → _; omega⟩
    · intro h
      exact ⟨⟨by show s.state + 1 ≤ 21; omega, h2, h3, h4⟩,
        by show (10 ≤ s.state + 1 ∧ s.state + 1 ≤ 13) → _; omega⟩
    · intro h
      exact ⟨⟨by show 8 ≤ 21; omega, h2, land_ff_le _, h4⟩,
        by show (10 ≤ 8 ∧ 8 ≤ 13) → _; omega⟩
    · intro h
      refine ⟨⟨?_, h2, land_ff_le _, h4⟩, ?_⟩
      · show (if _ then 14 else if _ then 9 else 0) ≤ 21
        split_ifs <;> omega
      · show (10 ≤ (if _ then 14 else if _ then 9 else 0)
          ∧ (if _ then 14 else if _ then 9 else 0) ≤ 13) → _
        split_ifs <;> omega
    · intro h
      have hseg : (shl s.segment 4 ||| nibble c) &&& 0xFFFF < 2 ^ 16 := by
        rw [land_ffff]; omega
      have hseg2 : (shl s.segment 4 ||| nibble c) &&& 0xFFFF < 2 ^ 20 := by omega
      exact ⟨⟨by show s.state + 1 ≤ 21; omega, h2, h3, hseg2⟩, fun _ => hseg⟩
    · intro h
      have hseg : shl s.segment 4 < 2 ^ 20 := by
        have := h5 (by omega)
        unfold shl U32
        rw [Nat.shiftLeft_eq]
        omega
      exact ⟨⟨by show 0 ≤ 21; omega, h2, h3, hseg⟩, by show (10 ≤ 0 ∧ 0 ≤ 13) → _; omega⟩
    · intro h
      exact ⟨⟨by show s.state + 1 ≤ 21; omega, h2, h3, h4⟩,
        by show (10 ≤ s.state + 1 ∧ s.state + 1 ≤ 13) → _; omega⟩
    · intro h
      exact ⟨⟨by show 14 ≤ 21; omega, h2, h3, h4⟩, by show (10 ≤ 14 ∧ 14 ≤ 13) → _; omega⟩
    · intro h; omega

theorem run_invariant (cs : List Nat) :
    ∀ s : Regs, Invariant s → Invariant (load_program_from s cs).regs := by
  induction cs with
  | nil => intro s h; exact h
  | cons c cs ih =>
    intro s h
    have h1 := iter_invariant s c h
    by_cases hb : (iter s c).2.2 = true
    · simp only [load_program_from, hb, if_true]
      exact h1
    · simp only [load_program_from, hb, Bool.false_eq_true, if_false]
      exact ih _ h1

/-- C20: the variables reached from the initial values on any input satisfy: the state
is at most 21 (a case of the `switch`), byte count and record type are at most 0xFF,
and the segment is below 2^20. -/
theorem C20_reachable_bounds (cs : List Nat) :
    (load_program cs).regs.state ≤ 21
    ∧ (load_program cs).regs.byte_count ≤ 0xFF
    ∧ (load_program cs).regs.record_type ≤ 0xFF
    ∧ (load_program cs).regs.segment < 2 ^ 20 :=
  (run_invariant cs init ⟨⟨by decide, by decide, by decide, by decide⟩, by decide⟩).1

/-! ## Variables the loop cannot tell apart -/

theorem lor_mod_two_pow (a b k : Nat) : (a ||| b) % 2 ^ k = a % 2 ^ k ||| b % 2 ^ k := by
  apply Nat.eq_of_testBit_eq
  intro i
  simp only [Nat.testBit_mod_two_pow, Nat.testBit_or, Bool.and_or_distrib_left]

/-- One data digit: the low `16 * m` of the new accumulator comes from the low `m` of
the old one. -/
theorem data_step_window (d1 d2 c m : Nat)
    (hm : m = 1 ∨ m = 16 ∨ m = 256 ∨ m = 4096 ∨ m = 65536 ∨ m = 1048576 ∨ m = 16777216)
    (h : d1 % m = d2 % m) :
    (shl d1 4 ||| nibble c) % (16 * m) = (shl d2 4 ||| nibble c) % (16 * m) := by
  have hn := nibble_lt c
  rw [shl_lor_nibble _ _ hn, shl_lor_nibble _ _ hn]
  rcases hm with e | e | e | e | e | e | e <;> subst e <;> omega

theorem data_step_full (d1 d2 c : Nat) (h : d1 % 268435456 = d2 % 268435456) :
    shl d1 4 ||| nibble c = shl d2 4 ||| nibble c := by
  have hn := nibble_lt c
  rw [shl_lor_nibble _ _ hn, shl_lor_nibble _ _ hn]
  omega

/-- One address digit: the low `16 * m` of the new address comes from the low `m` of
the old one and the segment. -/
theorem address_step_window (a1 a2 c seg m : Nat) (hm : m = 1 ∨ m = 16 ∨ m = 256)
    (h : a1 % m = a2 % m) :
    (((shl a1 4 ||| nibble c) &&& 0xFFFF) ||| seg) % (16 * m)
      = (((shl a2 4 ||| nibble c) &&& 0xFFFF) ||| seg) % (16 * m) := by
  have hn := nibble_lt c
  rw [shl_lor_nibble _ _ hn, shl_lor_nibble _ _ hn, land_ffff, land_ffff]
  rcases hm with e | e | e <;> subst e
  · rw [show 16 * 1 = 2 ^ 4 by norm_num, lor_mod_two_pow, lor_mod_two_pow]
    congr 1
    omega
  · rw [show 16 * 16 = 2 ^ 8 by norm_num, lor_mod_two_pow, lor_mod_two_pow]
    congr 1
    omega
  · rw [show 16 * 256 = 2 ^ 12 by norm_num, lor_mod_two_pow, lor_mod_two_pow]
    congr 1
    omega

theorem address_step_full (a1 a2 c seg : Nat) (h : a1 % 4096 = a2 % 4096) :
    ((shl a1 4 ||| nibble c) &&& 0xFFFF) ||| seg
      = ((shl a2 4 ||| nibble c) &&& 0xFFFF) ||| seg := by
  have hn := nibble_lt c
  rw [shl_lor_nibble _ _ hn, shl_lor_nibble _ _ hn, land_ffff, land_ffff]
  congr 1
  omega

theorem type_step_low (r c : Nat) : ((shl r 4 ||| nibble c) &&& 0xFF) % 16 = nibble c := by
  have hn := nibble_lt c
  rw [shl_lor_nibble _ _ hn, land_ff]
  omega

theorem type_step_full (r1 r2 c : Nat) (h : r1 % 16 = r2 % 16) :
    (shl r1 4 ||| nibble c) &&& 0xFF = (shl r2 4 ||| nibble c) &&& 0xFF := by
  have hn := nibble_lt c
  rw [shl_lor_nibble _ _ hn, shl_lor_nibble _ _ hn, land_ff, land_ff]
  omega

/-- The `switch` keeps two indistinguishable sets of variables indistinguishable and
makes the same `PUT32` calls on both; with equal checksum accumulators it makes the
same calls altogether and keeps the accumulators equal. -/
theorem dispatch_sim (s t : Regs) (c : Nat) (h : Sim s t) :
    Sim (dispatch s c).1 (dispatch t c).1
    ∧ writes (dispatch s c).2 = writes (dispatch t c).2
    ∧ (s.sum = t.sum →
        (dispatch s c).1.sum = (dispatch t c).1.sum ∧ (dispatch s c).2 = (dispatch t c).2) := by
  obtain ⟨hst, hseg, hfull, haddr, hrt, hdata⟩ := h
  by_cases e0 : s.state = 0
  · rw [dispatch_idle s c e0, dispatch_idle t c (by omega)]
    exact ⟨⟨hst, hseg, hfull, haddr, hrt, hdata⟩, rfl, fun hs => ⟨hs, rfl⟩⟩
  by_cases e1 : s.state = 1 ∨ s.state = 2
  · rw [dispatch_byte_count s c e1, dispatch_byte_count t c (by omega)]
    refine ⟨?_, rfl, fun hs => ⟨hs, rfl⟩⟩
    unfold Sim
    rcases e1 with e | e <;>
      simp [fullAddress, addressWindow, typeWindow, dataWindow, e, ← hst, hseg, Nat.mod_one]
  by_cases e3 : s.state = 3 ∨ s.state = 4 ∨ s.state = 5 ∨ s.state = 6
  · rw [dispatch_address s c e3, dispatch_address t c (by omega)]
    refine ⟨?_, rfl, fun hs => ⟨hs, rfl⟩⟩
    unfold Sim
    rcases e3 with e | e | e | e
    · have := address_step_window s.address t.address c s.segment 1 (Or.inl rfl) (by omega)
      simp [fullAddress, addressWindow, typeWindow, dataWindow, e, ← hst, ← hseg, Nat.mod_one]
      simpa using this
    · have := address_step_window s.address t.address c s.segment 16 (Or.inr (Or.inl rfl))
        (by simpa [addressWindow, e] using haddr)
      simp [fullAddress, addressWindow, typeWindow, dataWindow, e, ← hst, ← hseg, Nat.mod_one]
      simpa using this
    · have := address_step_window s.address t.address c s.segment 256 (Or.inr (Or.inr rfl))
        (by simpa [addressWindow, e] using haddr)
      simp [fullAddress, addressWindow, typeWindow, dataWindow, e, ← hst, ← hseg, Nat.mod_one]
      simpa using this
    · have := address_step_full s.address t.address c s.segment
        (by simpa [addressWindow, e] using haddr)
      simp [fullAddress, addressWindow, typeWindow, dataWindow, e, ← hst, ← hseg, Nat.mod_one]
      simpa using this
  by_cases e7 : s.state = 7
  · rw [dispatch_type_first s c e7, dispatch_type_first t c (by omega)]
    refine ⟨?_, rfl, fun hs => ⟨hs, rfl⟩⟩
    have ha : s.address = t.address := hfull (Or.inl e7)
    unfold Sim
    simp [fullAddress, addressWindow, typeWindow, dataWindow, ← hseg, Nat.mod_one, ha,
      type_step_low]
  by_cases e8 : s.state = 8
  · rw [dispatch_type_second s c e8, dispatch_type_second t c (by omega)]
    have ha : s.address = t.address := hfull (Or.inr (Or.inl e8))
    have hr := type_step_full s.record_type t.record_type c
      (by simpa [typeWindow, e8] using hrt)
    rw [← hr]
    refine ⟨?_, ?_, fun hs => ⟨hs, by rw [hs]⟩⟩
    · unfold Sim
      refine ⟨rfl, hseg, fun _ => ha, by simp only [ha], rfl, ?_⟩
      simp only []
      split_ifs <;> simp [dataWindow, Nat.mod_one]
    · simp only []
      split_ifs <;> rfl
  by_cases e9 : s.state = 9 ∨ s.state = 10 ∨ s.state = 11 ∨ s.state = 12
  · rw [dispatch_segment s c e9, dispatch_segment t c (by omega)]
    refine ⟨?_, rfl, fun hs => ⟨hs, rfl⟩⟩
    unfold Sim
    rcases e9 with e | e | e | e <;>
      simp [fullAddress, addressWindow, typeWindow, dataWindow, e, ← hst, hseg, Nat.mod_one]
  by_cases e13 : s.state = 13
  · rw [dispatch_segment_last s c e13, dispatch_segment_last t c (by omega)]
    refine ⟨?_, rfl, fun hs => ⟨hs, rfl⟩⟩
    unfold Sim
    simp [fullAddress, addressWindow, typeWindow, dataWindow, hseg, Nat.mod_one]
  by_cases e21 : s.state = 21
  · rw [dispatch_store s c e21, dispatch_store t c (by omega)]
    have ha : s.address = t.address := hfull (Or.inr (Or.inr (by omega)))
    have hd := data_step_full s.data t.data c (by simpa [dataWindow, e21] using hdata)
    rw [← hd, ← ha]
    refine ⟨?_, rfl, fun hs => ⟨by simp only [hs], rfl⟩⟩
    unfold Sim
    simp [fullAddress, addressWindow, typeWindow, dataWindow, hseg, Nat.mod_one]
  by_cases eb : 21 < s.state
  · rw [dispatch_beyond s c eb, dispatch_beyond t c (by omega)]
    exact ⟨⟨hst, hseg, hfull, haddr, hrt, hdata⟩, rfl, fun hs => ⟨hs, rfl⟩⟩
  · have e14 : 14 ≤ s.state ∧ s.state ≤ 20 := by omega
    rw [dispatch_data s c e14.1 e14.2, dispatch_data t c (by omega) (by omega)]
    have ha : s.address = t.address := hfull (Or.inr (Or.inr (by omega)))
    refine ⟨?_, rfl, fun hs => ⟨hs, rfl⟩⟩
    have hcase : s.state = 14 ∨ s.state = 15 ∨ s.state = 16 ∨ s.state = 17 ∨ s.state = 18
        ∨ s.state = 19 ∨ s.state = 20 := by omega
    unfold Sim
    rcases hcase with e | e | e | e | e | e | e
    · have := data_step_window s.data t.data c 1 (by omega) (by omega)
      simp [fullAddress, addressWindow, typeWindow, dataWindow, e, ← hst, ← hseg, Nat.mod_one,
        ha]
      simpa using this
    · have := data_step_window s.data t.data c 16 (by omega)
        (by simpa [dataWindow, e] using hdata)
      simp [fullAddress, addressWindow, typeWindow, dataWindow, e, ← hst, ← hseg, Nat.mod_one,
        ha]
      simpa using this
    · have := data_step_window s.data t.data c 256 (by omega)
        (by simpa [dataWindow, e] using hdata)
      simp [fullAddress, addressWindow, typeWindow, dataWindow, e, ← hst, ← hseg, Nat.mod_one,
        ha]
      simpa using this
    · have := data_step_window s.data t.data c 4096 (by omega)
        (by simpa [dataWindow, e] using hdata)
      simp [fullAddress, addressWindow, typeWindow, dataWindow, e, ← hst, ← hseg, Nat.mod_one,
        ha]
      simpa using this
    · have := data_step_window s.data t.data c 65536 (by omega)
        (by simpa [dataWindow, e] using hdata)
      simp [fullAddress, addressWindow, typeWindow, dataWindow, e, ← hst, ← hseg, Nat.mod_one,
        ha]
      simpa using this
    · have := data_step_window s.data t.data c 1048576 (by omega)
        (by simpa [dataWindow, e] using hdata)
      simp [fullAddress, addressWindow, typeWindow, dataWindow, e, ← hst, ← hseg, Nat.mod_one,
        ha]
      simpa using this
    · have := data_step_window s.data t.data c 16777216 (by omega)
        (by simpa [dataWindow, e] using hdata)
      simp [fullAddress, addressWindow, typeWindow, dataWindow, e, ← hst, ← hseg, Nat.mod_one,
        ha]
      simpa using this

theorem writes_append (xs ys : List Effect) : writes (xs ++ ys) = writes xs ++ writes ys := by
  induction xs with
  | nil => simp [writes]
  | cons e xs ih => cases e <;> simp [writes, ih]

/-- Two sets of variables with the same segment are indistinguishable once the state
is set to 0 or 1. -/
theorem sim_restart (s t : Regs) (k : Nat) (hk : k = 0 ∨ k = 1) (hseg : s.segment = t.segment) :
    Sim { s with state := k } { t with state := k } := by
  unfold Sim
  rcases hk with e | e <;> subst e <;>
    simp [fullAddress, addressWindow, typeWindow, dataWindow, hseg, Nat.mod_one]

/-- A `:` only sets the state to 1. -/
theorem run_colon (s : Regs) (cs : List Nat) :
    load_program_from s (58 :: cs) = load_program_from { s with state := 1 } cs := by
  simp [load_program_from, iter]

/-- What a character handled before the `switch` does. -/
theorem iter_special_eq (s : Regs) (c : Nat) (h : isSpecial c) :
    iter s c
      = ({ s with state := if c = 58 then 1 else 0 },
         if c = 103 ∨ c = 71 then [Effect.put_string ack, Effect.BRANCHTO RPI_BOOT] else [],
         decide (c = 103 ∨ c = 71)) := by
  unfold isSpecial at h
  rcases h with e | e | e | e | e <;> subst e <;> simp [iter]

/-- One pass of the loop keeps two indistinguishable sets of variables
indistinguishable, leaves the loop on both or on neither and makes the same `PUT32`
calls; with equal checksum accumulators it makes the same calls altogether. -/
theorem iter_sim (s t : Regs) (c : Nat) (h : Sim s t) :
    Sim (iter s c).1 (iter t c).1
    ∧ (iter s c).2.2 = (iter t c).2.2
    ∧ writes (iter s c).2.1 = writes (iter t c).2.1
    ∧ (s.sum = t.sum →
        (iter s c).1.sum = (iter t c).1.sum ∧ (iter s c).2.1 = (iter t c).2.1) := by
  by_cases hc : isSpecial c
  · rw [iter_special_eq s c hc, iter_special_eq t c hc]
    refine ⟨sim_restart s t _ ?_ h.2.1, rfl, rfl, fun hs => ⟨hs, rfl⟩⟩
    split_ifs
    · exact Or.inr rfl
    · exact Or.inl rfl
  · rw [iter_plain s c hc, iter_plain t c hc]
    obtain ⟨h1, h2, h3⟩ := dispatch_sim s t c h
    exact ⟨h1, rfl, h2, h3⟩

/-- A run keeps making the same `PUT32` calls from two indistinguishable sets of
variables, and leaves the loop on both or on neither; with equal checksum accumulators
the whole traces are equal. -/
theorem run_sim (cs : List Nat) :
    ∀ s t : Regs, Sim s t →
      writes (load_program_from s cs).trace = writes (load_program_from t cs).trace
      ∧ (load_program_from s cs).halted = (load_program_from t cs).halted
      ∧ (s.sum = t.sum →
          (load_program_from s cs).trace = (load_program_from t cs).trace) := by
  induction cs with
  | nil => intro s t _; simp [load_program_from]
  | cons c cs ih =>
    intro s t h
    obtain ⟨h1, h2, h3, h4⟩ := iter_sim s t c h
    obtain ⟨i1, i2, i3⟩ := ih _ _ h1
    by_cases hb : (iter s c).2.2 = true
    · have hb' : (iter t c).2.2 = true := by rw [← h2]; exact hb
      simp only [load_program_from, hb, hb', if_true]
      exact ⟨h3, trivial, fun hs => (h4 hs).2⟩
    · have hb' : ¬ (iter t c).2.2 = true := by rw [← h2]; exact hb
      simp only [load_program_from, hb, hb', Bool.false_eq_true, if_false]
      refine ⟨by rw [writes_append, writes_append, h3, i1], i2, fun hs => ?_⟩
      rw [(h4 hs).2, i3 (h4 hs).1]

/-! ## The byte count and the checksum byte are never read -/

theorem byteCountVariant_refl (xs : List Nat) : ByteCountVariant xs xs := by
  induction xs with
  | nil => exact ByteCountVariant.nil
  | cons c xs ih => exact ByteCountVariant.same c ih

/-- The `switch` reads the byte count only to update it. -/
theorem dispatch_byte_count_frame (s : Regs) (b c : Nat) :
    sameButByteCount (dispatch s c).1 (dispatch { s with byte_count := b } c).1
    ∧ (dispatch s c).2 = (dispatch { s with byte_count := b } c).2 := by
  by_cases e0 : s.state = 0
  · rw [dispatch_idle s c e0, dispatch_idle { s with byte_count := b } c e0]
    exact ⟨rfl, rfl⟩
  by_cases e1 : s.state = 1 ∨ s.state = 2
  · rw [dispatch_byte_count s c e1, dispatch_byte_count { s with byte_count := b } c e1]
    exact ⟨rfl, rfl⟩
  by_cases e3 : s.state = 3 ∨ s.state = 4 ∨ s.state = 5 ∨ s.state = 6
  · rw [dispatch_address s c e3, dispatch_address { s with byte_count := b } c e3]
    exact ⟨rfl, rfl⟩
  by_cases e7 : s.state = 7
  · rw [dispatch_type_first s c e7, dispatch_type_first { s with byte_count := b } c e7]
    exact ⟨rfl, rfl⟩
  by_cases e8 : s.state = 8
  · rw [dispatch_type_second s c e8, dispatch_type_second { s with byte_count := b } c e8]
    exact ⟨rfl, rfl⟩
  by_cases e9 : s.state = 9 ∨ s.state = 10 ∨ s.state = 11 ∨ s.state = 12
  · rw [dispatch_segment s c e9, dispatch_segment { s with byte_count := b } c e9]
    exact ⟨rfl, rfl⟩
  by_cases e13 : s.state = 13
  · rw [dispatch_segment_last s c e13, dispatch_segment_last { s with byte_count := b } c e13]
    exact ⟨rfl, rfl⟩
  by_cases e21 : s.state = 21
  · rw [dispatch_store s c e21, dispatch_store { s with byte_count := b } c e21]
    exact ⟨rfl, rfl⟩
  by_cases eb : 21 < s.state
  · rw [dispatch_beyond s c eb, dispatch_beyond { s with byte_count := b } c eb]
    exact ⟨rfl, rfl⟩
  · have h1 : 14 ≤ s.state := by omega
    have h2 : s.state ≤ 20 := by omega
    rw [dispatch_data s c h1 h2, dispatch_data { s with byte_count := b } c h1 h2]
    exact ⟨rfl, rfl⟩

theorem sameButByteCount_eq (s t : Regs) (h : sameButByteCount s t) :
    t = { s with byte_count := t.byte_count } := by
  obtain ⟨st, bc, ad, rt, sg, d, sm⟩ := s
  obtain ⟨st', bc', ad', rt', sg', d', sm'⟩ := t
  unfold sameButByteCount at h
  simp only [Regs.mk.injEq] at h
  obtain ⟨h1, _, h3, h4, h5, h6, h7⟩ := h
  subst h1 h3 h4 h5 h6 h7
  rfl

/-- One pass of the loop does the same, up to the byte count, on variables that differ
at most in the byte count. -/
theorem iter_byte_count_frame (s t : Regs) (c : Nat) (h : sameButByteCount s t) :
    sameButByteCount (iter s c).1 (iter t c).1
    ∧ (iter s c).2.1 = (iter t c).2.1 ∧ (iter s c).2.2 = (iter t c).2.2 := by
  rw [sameButByteCount_eq s t h]
  by_cases hc : isSpecial c
  · rw [iter_special_eq s c hc, iter_special_eq _ c hc]
    exact ⟨rfl, rfl, rfl⟩
  · rw [iter_plain s c hc, iter_plain _ c hc]
    obtain ⟨h1, h2⟩ := dispatch_byte_count_frame s t.byte_count c
    exact ⟨h1, h2, rfl⟩

theorem run_byte_count_frame (cs : List Nat) :
    ∀ s t : Regs, sameButByteCount s t →
      sameButByteCount (load_program_from s cs).regs (load_program_from t cs).regs
      ∧ (load_program_from s cs).trace = (load_program_from t cs).trace
      ∧ (load_program_from s cs).halted = (load_program_from t cs).halted := by
  induction cs with
  | nil => intro s t h; exact ⟨h, rfl, rfl⟩
  | cons c cs ih =>
    intro s t h
    obtain ⟨h1, h2, h3⟩ := iter_byte_count_frame s t c h
    obtain ⟨i1, i2, i3⟩ := ih _ _ h1
    by_cases hb : (iter s c).2.2 = true
    · have hb' : (iter t c).2.2 = true := by rw [← h3]; exact hb
      simp only [load_program_from, hb, hb', if_true]
      exact ⟨h1, h2, trivial⟩
    · have hb' : ¬ (iter t c).2.2 = true := by rw [← h3]; exact hb
      simp only [load_program_from, hb, hb', Bool.false_eq_true, if_false]
      exact ⟨i1, by rw [h2, i2], i3⟩

/-- Inputs that differ only in byte-count characters are run alike, up to the byte
count, from variables that differ at most in the byte count. -/
theorem variant_run (xs ys : List Nat) (h : ByteCountVariant xs ys) :
    ∀ s t : Regs, sameButByteCount s t →
      sameButByteCount (load_program_from s xs).regs (load_program_from t ys).regs
      ∧ (load_program_from s xs).trace = (load_program_from t ys).trace
      ∧ (load_program_from s xs).halted = (load_program_from t ys).halted := by
  induction h with
  | nil => intro s t h; exact ⟨h, rfl, rfl⟩
  | same c _ ih =>
    intro s t h
    obtain ⟨h1, h2, h3⟩ := iter_byte_count_frame s t c h
    obtain ⟨i1, i2, i3⟩ := ih _ _ h1
    by_cases hb : (iter s c).2.2 = true
    · have hb' : (iter t c).2.2 = true := by rw [← h3]; exact hb
      simp only [load_program_from, hb, hb', if_true]
      exact ⟨h1, h2, trivial⟩
    · have hb' : ¬ (iter t c).2.2 = true := by rw [← h3]; exact hb
      simp only [load_program_from, hb, hb', Bool.false_eq_true, if_false]
      exact ⟨i1, by rw [h2, i2], i3⟩
  | @count a1 a2 b1 b2 xs ys ha1 ha2 hb1 hb2 _ ih =>
    intro s t h
    have ea := byte_count_run s a1 a2 ha1 ha2
    have eb := byte_count_run t b1 b2 hb1 hb2
    have ra := run_append [58, a1, a2] xs s (by rw [ea])
    have rb := run_append [58, b1, b2] ys t (by rw [eb])
    rw [ea] at ra
    rw [eb] at rb
    simp only [List.cons_append, List.nil_append] at ra rb
    rw [ra, rb]
    have hrel : sameButByteCount
        { s with state := 3, byte_count := 16 * nibble a1 + nibble a2 }
        { t with state := 3, byte_count := 16 * nibble b1 + nibble b2 } := by
      rw [sameButByteCount_eq s t h]
      rfl
    exact ih _ _ hrel

/-- C13: two inputs that differ only in the two characters after the `:` of some
records (characters other than `:`, CR, LF, `g`, `G` on both sides), run from the
initial values, give the same trace (`PUT32` calls, `print_hex` calls, acknowledgment
and branch), leave the loop alike, and end with the same address, segment and checksum
accumulator; in fact with the same variables but the byte count. -/
theorem C13_byte_count_never_read (xs ys : List Nat) (h : ByteCountVariant xs ys) :
    (load_program xs).trace = (load_program ys).trace
    ∧ (load_program xs).halted = (load_program ys).halted
    ∧ (load_program xs).regs.address = (load_program ys).regs.address
    ∧ (load_program xs).regs.segment = (load_program ys).regs.segment
    ∧ (load_program xs).regs.sum = (load_program ys).regs.sum
    ∧ sameButByteCount (load_program xs).regs (load_program ys).regs := by
  obtain ⟨h1, h2, h3⟩ := variant_run xs ys h init init rfl
  have e := sameButByteCount_eq _ _ h1
  refine ⟨h2, h3, ?_, ?_, ?_, h1⟩
  · rw [load_program, load_program, e]
  · rw [load_program, load_program, e]
  · rw [load_program, load_program, e]

/-- C13, for a Data record and an End-of-file record whose byte counts `04` and `00`
are replaced by `FF` and `zz`. -/
theorem C13_byte_count_never_read_witness :
    (load_program (58 :: 48 :: 52 :: (codes "00000078563412E8\r\n"
        ++ 58 :: 48 :: 48 :: codes "000001FF\r\ng"))).trace
      = (load_program (58 :: 70 :: 70 :: (codes "00000078563412E8\r\n"
        ++ 58 :: 122 :: 122 :: codes "000001FF\r\ng"))).trace :=
  (C13_byte_count_never_read _ _
    (ByteCountVariant.count 48 52 70 70 (by decide) (by decide) (by decide) (by decide)
      (show ByteCountVariant
          (codes "00000078563412E8\r\n" ++ 58 :: 48 :: 48 :: codes "000001FF\r\ng")
          (codes "00000078563412E8\r\n" ++ 58 :: 122 :: 122 :: codes "000001FF\r\ng") from
        ByteCountVariant.same 48 (ByteCountVariant.same 48 (ByteCountVariant.same 48
        (ByteCountVariant.same 48 (ByteCountVariant.same 48 (ByteCountVariant.same 48
        (ByteCountVariant.same 55 (ByteCountVariant.same 56 (ByteCountVariant.same 53
        (ByteCountVariant.same 54 (ByteCountVariant.same 51 (ByteCountVariant.same 52
        (ByteCountVariant.same 49 (ByteCountVariant.same 50 (ByteCountVariant.same 69
        (ByteCountVariant.same 56 (ByteCountVariant.same 13 (ByteCountVariant.same 10
        (ByteCountVariant.count 48 48 122 122 (by decide) (by decide) (by decide)
          (by decide) (byteCountVariant_refl _)))))))))))))))))))))).1

/-- A payload of whole words read from state 14 ends in state 14 again. -/
theorem payload_state (n : Nat) :
    ∀ (p : List Nat) (s : Regs), p.length ≤ n → s.state = 14 →
      (∀ c ∈ p, ¬ isSpecial c) → p.length % 8 = 0 →
      (load_program_from s p).regs.state = 14 ∧ (load_program_from s p).halted = false := by
  induction n with
  | zero =>
    intro p s hn hs _ _
    have : p = [] := List.length_eq_zero.mp (by omega)
    subst this
    exact ⟨hs, rfl⟩
  | succ n ih =>
    intro p s hn hs hp h8
    by_cases h0 : p.length = 0
    · have : p = [] := List.length_eq_zero.mp h0
      subst this
      exact ⟨hs, rfl⟩
    · have hsplit : p = p.take 8 ++ p.drop 8 := (List.take_append_drop 8 p).symm
      have hlen : (p.take 8).length = 8 := by simp; omega
      have hw := data_word_run s (p.take 8) hs hlen (fun c hc => hp c (List.mem_of_mem_take hc))
      have hdl : (p.drop 8).length = p.length - 8 := by simp
      have hrun := run_append (p.take 8) (p.drop 8) s (by rw [hw])
      rw [← hsplit, hw] at hrun
      simp only [] at hrun
      rw [hrun]
      exact ih (p.drop 8) _ (by omega) rfl (fun c hc => hp c (List.mem_of_mem_drop hc))
        (by omega)

/-- Two characters read at the start of a data word and then a `:` or a line end: only
the data accumulator and the state change, and nothing is called. -/
theorem trailer_run (r : Regs) (k1 k2 t : Nat) (hr : r.state = 14) (n1 : ¬ isSpecial k1)
    (n2 : ¬ isSpecial k2) (ht : t = 58 ∨ t = 13 ∨ t = 10) :
    load_program_from r [k1, k2, t]
      = { regs := { r with data := word r.data [k1, k2], state := if t = 58 then 1 else 0 },
          trace := [], halted := false, rest := [] } := by
  have hd := data_run [k1, k2] r (by simp; tauto) (by omega) (by simp; omega)
  have e : [k1, k2, t] = [k1, k2] ++ [t] := rfl
  rw [e, run_append [k1, k2] [t] r (by rw [hd]), hd]
  rcases ht with h | h | h <;> subst h <;> simp [load_program_from, iter]

/-- C14: in a Data record (state 14 after the header) whose payload is a multiple of 8
hex digit characters, followed by two checksum characters and by `:`, CR or LF,
replacing the two checksum characters by any two others (none of `:`, CR, LF, `g`, `G`)
changes nothing in the trace: the record makes the same `PUT32` calls, namely those of
its payload, and the rest of the input causes the same calls. -/
theorem C14_checksum_byte_ignored (s : Regs) (p rest : List Nat) (k1 k2 j1 j2 t : Nat)
    (hs : s.state = 14) (hp : ∀ c ∈ p, isHexDigit c) (h8 : p.length % 8 = 0)
    (hk1 : ¬ isSpecial k1) (hk2 : ¬ isSpecial k2) (hj1 : ¬ isSpecial j1)
    (hj2 : ¬ isSpecial j2) (ht : t = 58 ∨ t = 13 ∨ t = 10) :
    (load_program_from s (p ++ [k1, k2, t])).trace = (load_program_from s p).trace
    ∧ (load_program_from s (p ++ [j1, j2, t])).trace = (load_program_from s p).trace
    ∧ (load_program_from s (p ++ ([k1, k2, t] ++ rest))).trace
        = (load_program_from s (p ++ ([j1, j2, t] ++ rest))).trace
    ∧ (load_program_from s (p ++ ([k1, k2, t] ++ rest))).halted
        = (load_program_from s (p ++ ([j1, j2, t] ++ rest))).halted := by
  obtain ⟨h14, hh⟩ := payload_state p.length p s (Nat.le_refl _) hs
    (fun c hc => hex_not_special c (hp c hc)) h8
  have ek := trailer_run (load_program_from s p).regs k1 k2 t h14 hk1 hk2 ht
  have ej := trailer_run (load_program_from s p).regs j1 j2 t h14 hj1 hj2 ht
  have ekr := run_append [k1, k2, t] rest (load_program_from s p).regs (by rw [ek])
  have ejr := run_append [j1, j2, t] rest (load_program_from s p).regs (by rw [ej])
  rw [ek] at ekr
  rw [ej] at ejr
  simp only [] at ekr ejr
  have hsim := run_sim rest
    { (load_program_from s p).regs with
        data := word (load_program_from s p).regs.data [k1, k2],
        state := if t = 58 then 1 else 0 }
    { (load_program_from s p).regs with
        data := word (load_program_from s p).regs.data [j1, j2],
        state := if t = 58 then 1 else 0 }
    (sim_restart { (load_program_from s p).regs with
        data := word (load_program_from s p).regs.data [k1, k2] }
      { (load_program_from s p).regs with
        data := word (load_program_from s p).regs.data [j1, j2] }
      (if t = 58 then 1 else 0) (by split_ifs <;> simp) rfl)
  rw [run_append p [k1, k2, t] s hh, run_append p [j1, j2, t] s hh,
    run_append p ([k1, k2, t] ++ rest) s hh, run_append p ([j1, j2, t] ++ rest) s hh,
    ek, ej, ekr, ejr]
  simp only [List.append_nil, List.nil_append, true_and]
  exact ⟨by rw [hsim.2.2 rfl], hsim.2.1⟩

/-- C14, for the payload `78563412`, the checksum characters `E8` replaced by `00`, a
carriage return and a following End-of-file record. -/
theorem C14_checksum_byte_ignored_witness :
    (load_program_from atData
        (codes "78563412" ++ ([69, 56, 13] ++ codes "\n:00000001FF\r\n"))).trace
      = (load_program_from atData
        (codes "78563412" ++ ([48, 48, 13] ++ codes "\n:00000001FF\r\n"))).trace :=
  (C14_checksum_byte_ignored atData (codes "78563412") (codes "\n:00000001FF\r\n")
    69 56 48 48 13 rfl (by decide) (by decide) (by decide) (by decide) (by decide)
    (by decide) (by decide)).2.2.1

/-! ## Replaying an input, and starting a record from any variables -/

/-- C15 fails on the code: the stream `12345678:04000000` causes no `PUT32` on the first
pass and one on the second, which starts in the data field; the stream
`:0400000078563412E8` CR LF `:020000021000EC` CR LF writes at address 0 on the first
pass and at 0x10000 on the second, which starts with the segment of its last record. -/
theorem C15_replay_differs :
    writes (load_program (codes "12345678:04000000")).trace = []
    ∧ writes (load_program_from (load_program (codes "12345678:04000000")).regs
        (codes "12345678:04000000")).trace = [Effect.PUT32 0 0x78563412]
    ∧ writes (load_program (codes ":0400000078563412E8\r\n:020000021000EC\r\n")).trace
        = [Effect.PUT32 0 0x12345678]
    ∧ writes (load_program_from
          (load_program (codes ":0400000078563412E8\r\n:020000021000EC\r\n")).regs
          (codes ":0400000078563412E8\r\n:020000021000EC\r\n")).trace
        = [Effect.PUT32 0x10000 0x12345678]
    ∧ writes (load_program_from (load_program (codes "12345678:04000000")).regs
        (codes "12345678:04000000")).trace
      ≠ writes (load_program (codes "12345678:04000000")).trace
    ∧ writes (load_program_from
          (load_program (codes ":0400000078563412E8\r\n:020000021000EC\r\n")).regs
          (codes ":0400000078563412E8\r\n:020000021000EC\r\n")).trace
      ≠ writes (load_program (codes ":0400000078563412E8\r\n:020000021000EC\r\n")).trace := by
  decide

/-- C15 as amended: for every stream (without `g`/`G`) that begins with `:` and after
which the segment is 0, as it is initially, feeding the stream a second time, with the
variables the first pass left behind, makes the same `PUT32` calls (same addresses,
same values, same order) as the first pass made from the initial values. -/
theorem C15_replay_same_writes (cs : List Nat) (_hg : ∀ c ∈ cs, c ≠ 103 ∧ c ≠ 71)
    (hseg : (load_program (58 :: cs)).regs.segment = 0) :
    writes (load_program_from (load_program (58 :: cs)).regs (58 :: cs)).trace
      = writes (load_program (58 :: cs)).trace := by
  unfold load_program at *
  rw [run_colon (load_program_from init (58 :: cs)).regs cs, run_colon init cs]
  exact (run_sim cs _ _ (sim_restart _ _ 1 (Or.inr rfl) hseg)).1

/-- C15 as amended, for the stream `:0400000078563412E8` CR LF. -/
theorem C15_replay_same_writes_witness :
    writes (load_program_from (load_program (58 :: codes "0400000078563412E8\r\n")).regs
        (58 :: codes "0400000078563412E8\r\n")).trace
      = writes (load_program (58 :: codes "0400000078563412E8\r\n")).trace :=
  C15_replay_same_writes (codes "0400000078563412E8\r\n") (by decide) (by decide)

/-- C16: two sets of variables that agree on the segment and the checksum accumulator,
whatever their state, byte count, address, record type and data accumulator (values of
a 32-bit `unsigned int` or not), produce on every input that begins with `:` the same
trace (`PUT32` calls, `print_hex` calls, acknowledgment and branch) and leave the loop
on both or on neither. -/
theorem C16_no_history_after_colon (s t : Regs) (cs : List Nat)
    (hseg : s.segment = t.segment) (hsum : s.sum = t.sum) :
    (load_program_from s (58 :: cs)).trace = (load_program_from t (58 :: cs)).trace
    ∧ (load_program_from s (58 :: cs)).halted = (load_program_from t (58 :: cs)).halted := by
  rw [run_colon s cs, run_colon t cs]
  obtain ⟨_, h2, h3⟩ := run_sim cs _ _ (sim_restart s t 1 (Or.inr rfl) hseg)
  exact ⟨h3 hsum, h2⟩

/-- C16, for the initial values against a parser in the middle of a data word, on the
input `:0400000000001234AB` CR LF. -/
theorem C16_no_history_after_colon_witness :
    (load_program_from init (58 :: codes "0400000000001234AB\r\n")).trace
      = (load_program_from { atData with state := 19, sum := 0 }
          (58 :: codes "0400000000001234AB\r\n")).trace :=
  (C16_no_history_after_colon init { atData with state := 19, sum := 0 }
    (codes "0400000000001234AB\r\n") rfl rfl).1

end Bootloader
